import Mathlib

/-!
# Verification of the Allusion FileStore reconciliation engine

A shallow embedding of the batch reconciliation engine of `FileStore`
(`src/unnamed/part_003`, class `FileStore`) and the entity model `ClientFile`
(`src/unnamed/part_002`), together with proofs about the claims of the
specification.

Modelling conventions:
* ids, tag ids, extra-property ids/values, and filesystem paths are abstracted
  to `Nat`; object identity of a `ClientFile` is an explicit `uid` field
  (JavaScript reference equality = `uid` equality; a fresh construction draws
  a fresh uid from a counter threaded through the run).
* A JS `Map` is an insertion-ordered association list: `set` overwrites in
  place, `get` finds the unique binding.
* The single-threaded JS event loop is modelled by an explicit schedule: at
  every `await` suspension point (the delay after each committed batch) a
  concurrent task may overwrite the store's `fetchTaskIdPair`; nothing can
  interleave inside the synchronous (`runInAction`) batch body.
* Fields irrelevant to every claim (dimensions, dates, selection, MobX
  subscription plumbing) are not represented; `dispose()` is recorded in an
  event log (its only state effect, detaching the autosave reaction, has no
  observable counterpart in the modelled state).
-/

namespace Allusion

/-- `Status` enum of `FileStore` (part_003:1341-1345). -/
inductive Status where
  | success
  | error
  | aborted
deriving DecidableEq, Repr

/-- `Content` enum of `FileStore` (part_003:42-47). -/
inductive Content where
  | all
  | missing
  | untagged
  | query
deriving DecidableEq, Repr

/-- A backend record (`FileDTO`): stable id, mutable-over-time tag-id list and
extra-property map (association list with the distinct keys of
`Object.entries`), and the absolute path used by the existence probe. -/
structure FileDTO where
  id : Nat
  tags : List Nat
  extraProperties : List (Nat × Nat)
  absolutePath : Nat
deriving DecidableEq, Repr

/-- The client-owned entity (`ClientFile`, part_002:40-212).  `uid` is the
object identity; `thumbnailPath` is the cached derived display path;
`isBroken` is `undefined` (`none`) until an existence check completes. -/
structure ClientFile where
  uid : Nat
  id : Nat
  tags : List Nat
  extraProperties : List (Nat × Nat)
  absolutePath : Nat
  thumbnailPath : Nat
  isBroken : Option Bool
deriving DecidableEq, Repr

/-- The external collaborators reachable from the store: the tag store
(`tagStore.get`), the extra-property store (`extraPropertyStore.get`), the
set of hidden tags, and the derived-thumbnail-path computation
(`needsThumbnail`/`getThumbnailPath`/`setThumbnailPath`), abstracted to the
path value a freshly constructed entity receives. -/
structure Env where
  tagExists : Nat → Bool
  epExists : Nat → Bool
  hiddenTag : Nat → Bool
  derivePath : FileDTO → Nat

/-! ## JS `Map` as an insertion-ordered association list -/

/-- `Map.get`. -/
def mapGet {α : Type} : List (Nat × α) → Nat → Option α
  | [], _ => none
  | (k', v') :: rest, k => if k' = k then some v' else mapGet rest k

/-- `Map.set`: overwrite in place if the key is present, else append. -/
def mapSet {α : Type} : List (Nat × α) → Nat → α → List (Nat × α)
  | [], k, v => [(k, v)]
  | (k', v') :: rest, k, v =>
      if k' = k then (k, v) :: rest else (k', v') :: mapSet rest k v

theorem mapGet_mapSet_self {α : Type} (m : List (Nat × α)) (k : Nat) (v : α) :
    mapGet (mapSet m k v) k = some v := by
  induction m with
  | nil => simp [mapGet, mapSet]
  | cons kv rest ih =>
      by_cases h : kv.1 = k
      · simp [mapSet, mapGet, h]
      · simp only [mapSet, mapGet, h, if_false]
        simpa [mapGet, h] using ih

theorem mapGet_mapSet_ne {α : Type} (m : List (Nat × α)) (k k' : Nat) (v : α)
    (h : k ≠ k') : mapGet (mapSet m k v) k' = mapGet m k' := by
  induction m with
  | nil => simp [mapGet, mapSet, h]
  | cons kv rest ih =>
      by_cases hk : kv.1 = k
      · simp [mapSet, mapGet, hk, h]
      · simp only [mapSet, hk, if_false, mapGet]
        by_cases hk' : kv.1 = k'
        · simp [hk']
        · simp [hk', ih]

/-- `Set` insertion semantics of JS: keep the first occurrence of each
element (`new Set(list)` / `ObservableSet.replace`). -/
def dedupFirst : List Nat → List Nat :=
  go []
where
  go : List Nat → List Nat → List Nat
    | _, [] => []
    | seen, x :: xs => if x ∈ seen then go seen xs else x :: go (x :: seen) xs

/-! ## Store state (the observable fields of `FileStore` the claims touch) -/

/-- The relevant observable state of `FileStore` (part_003:56-99):
the collection `fileList` (a position may be a hole), the id→position
`index`, the epoch pair `fetchTaskIdPair`, the scalar counters, the content
mode and the estimator map `averageFetchTimes`. -/
structure FileStoreState where
  fileList : List (Option ClientFile)
  index : List (Nat × Nat)
  fetchTaskIdPair : Nat × Nat
  numLoadedFiles : Nat
  numTotalFiles : Nat
  numUntaggedFiles : Nat
  numMissingFiles : Nat
  content : Content
  averageFetchTimes : List (Nat × Rat)
deriving DecidableEq, Repr

/-! ## Entity construction and reconciliation (per item) -/

/-- `tagStore.getTags` (part_004:58-67): look up each id, dropping unknown
ones, collected into a `Set` (first occurrence kept). -/
def getTags (env : Env) (ids : List Nat) : List Nat :=
  dedupFirst (ids.filter env.tagExists)

/-- `FileStore.getExtraProperties` (part_003:930-941): keep the entries whose
extra-property id the store knows. -/
def getExtraProperties (env : Env) (eps : List (Nat × Nat)) : List (Nat × Nat) :=
  eps.filter (fun kv => env.epExists kv.1)

/-- Construction of a new entity during reconciliation: `new ClientFile(this, f)`
(part_002:70-112) followed by `file.setThumbnailPath(...)` (part_003:1237-1246).
The extra-property initialisation mirrors `getExtraProperties`; the
`ClientFile` variant carrying `extraProperties` is not under `src/`, its
constructor is modelled from the spec ("constructs a new ManagedEntity from
`record`, eagerly computing a best-effort derived display path"). -/
def mkClientFile (env : Env) (uid : Nat) (f : FileDTO) : ClientFile :=
  { uid := uid
    id := f.id
    tags := getTags env f.tags
    extraProperties := getExtraProperties env f.extraProperties
    absolutePath := f.absolutePath
    thumbnailPath := env.derivePath f
    isBroken := none }

/-- The tag-change test of the reuse branch (part_003:1209-1212):
`existingFile.tags.size !== newTags.length ||
 Array.from(existingFile.tags).some((t, i) => t.id !== newTags[i].id)`. -/
def tagsDiffer (old new : List Nat) : Bool :=
  old.length ≠ new.length ||
    (List.zip old new).any (fun p => p.1 ≠ p.2)

/-- The extra-property-change test of the reuse branch (part_003:1223-1226):
`existingFile.extraProperties.size !== newExtraProps.size ||
 Array.from(existingFile.extraProperties).some((t) => t[1] !== newExtraProps.get(t[0]))`. -/
def epDiffer (old new : List (Nat × Nat)) : Bool :=
  old.length ≠ new.length ||
    old.any (fun kv => mapGet new kv.1 ≠ some kv.2)

/-- The reuse branch of `filesFromBackend` (part_003:1199-1228): rebuild the
tag list through the tag store, update the entity in place only when the
comparison detects a change (`updateTagsFromBackend`, part_002:177-179,
replaces the observable set), and likewise for the extra properties
(`updateExtraPropertiesFromBackend` — not under `src/`; modelled from the
spec: "mutates the observable fields in place", i.e. replaces the map). -/
def reconcileExisting (env : Env) (f : FileDTO) (file : ClientFile) : ClientFile :=
  let newTags := f.tags.filter env.tagExists
  let file1 :=
    if tagsDiffer file.tags newTags then { file with tags := dedupFirst newTags } else file
  let newEP := f.extraProperties.filter (fun kv => env.epExists kv.1)
  if epDiffer file1.extraProperties newEP then { file1 with extraProperties := newEP } else file1

/-- `const eFileIndex = transitionIndex.get(f.id); const existingFile =
eFileIndex !== undefined ? transitionFileList[eFileIndex] : undefined`
(part_003:1196-1198). -/
def lookupExisting (transIdx : List (Nat × Nat)) (transList : List (Option ClientFile))
    (id : Nat) : Option ClientFile :=
  match mapGet transIdx id with
  | some j => (transList[j]?).getD none
  | none => none

/-! ## Batch geometry (part_003:1154-1184) -/

/-- `clamp` from `common/core` (not under `src/`; the standard
`Math.min(Math.max(val, min), max)`). -/
def jsClamp (v lo hi : Int) : Int := min (max v lo) hi

/-- `Math.ceil(a / b)` for an integer numerator and positive integer
denominator. -/
def jsCeilDiv (a b : Int) : Int := -((-a).ediv b)

/-- `initialIndex = clamp(uiStore.firstItem, 0, total - 1)` (part_003:1154). -/
def ffbInitialIndex (total firstItem : Nat) : Int :=
  jsClamp firstItem 0 ((total : Int) - 1)

/-- `initialBatchStart = initialIndex - Math.floor(batchSize / 2)`
(part_003:1158). -/
def initialBatchStart (total B firstItem : Nat) : Int :=
  ffbInitialIndex total firstItem - (B / 2 : Nat)

/-- `initialBatchIndex = Math.ceil(initialBatchStart / batchSize)`
(part_003:1159). -/
def initialBatchIndex (total B firstItem : Nat) : Int :=
  jsCeilDiv (initialBatchStart total B firstItem) B

/-- `absoluteBatchStart = initialBatchStart - batchSize * initialBatchIndex`
(part_003:1162). -/
def absoluteBatchStart (total B firstItem : Nat) : Int :=
  initialBatchStart total B firstItem - B * initialBatchIndex total B firstItem

/-- `totalBatches = Math.ceil((total - absoluteBatchStart) / batchSize)`
(part_003:1163). -/
def totalBatches (total B firstItem : Nat) : Int :=
  jsCeilDiv ((total : Int) - absoluteBatchStart total B firstItem) B

/-- The clamped position range of one batch (part_003:1182-1184):
`rawStart = absoluteBatchStart + batchIndex * batchSize`,
`start = max(rawStart, 0)`, `end = min(rawStart + batchSize - 1, total - 1)`,
listed ascending as the loop `for (let i = start; i <= end; i++)` visits them. -/
def batchPositions (absStart : Int) (B total : Nat) (k : Int) : List Nat :=
  let rawStart := absStart + k * B
  let s := max rawStart 0
  let e := min (rawStart + B - 1) ((total : Int) - 1)
  List.range' s.toNat (e + 1 - s).toNat

/-- The batch-order construction loop (part_003:1164-1178), with explicit
fuel for the `for (let offset = 0; batchOrder.length < totalBatches;
offset++)` loop.  At offset 0 the initial batch is pushed; at later offsets
`initialBatchIndex + offset` is pushed when below `totalBatches`, then
`initialBatchIndex - offset` when non-negative. -/
def batchOrderLoop (iBI tB : Int) : Nat → Nat → List Int → List Int
  | 0, _, acc => acc
  | fuel + 1, offset, acc =>
      if (acc.length : Int) < tB then
        let acc' :=
          if offset = 0 then acc ++ [iBI]
          else
            let acc1 := if iBI + offset < tB then acc ++ [iBI + offset] else acc
            if 0 ≤ iBI - offset then acc1 ++ [iBI - offset] else acc1
        batchOrderLoop iBI tB fuel (offset + 1) acc'
      else acc

/-- The visiting order of the batches. -/
def batchOrder (iBI tB : Int) : List Int :=
  batchOrderLoop iBI tB (tB.toNat + 1) 0 []

/-- The batch order computed by `filesFromBackend` from its inputs. -/
def ffbOrder (total B firstItem : Nat) : List Int :=
  batchOrder (initialBatchIndex total B firstItem) (totalBatches total B firstItem)

/-! ## The batch loop of `filesFromBackend` (part_003:1126-1283) -/

/-- The mutable locals of one `filesFromBackend` run: the output array
`targetList` and map `targeIndex`, the live `fetchTaskIdPair` and
`numLoadedFiles`, the `reusedStatus` set, the `status` flag, the fresh-uid
counter for `new ClientFile`, the uids constructed so far, and the schedule
of concurrent `fetchTaskIdPair` overwrites, one entry consumed per `await`. -/
structure RunSt where
  target : List (Option ClientFile)
  tIdx : List (Nat × Nat)
  pair : Nat × Nat
  numLoaded : Nat
  reused : List Nat
  status : Status
  nextUid : Nat
  created : List Nat
  sched : List (Option (Nat × Nat))
deriving DecidableEq, Repr

/-- The body of the position loop (part_003:1187-1251): abort if the
authoritative pair no longer matches the captured `taskId` (the `break` is
modelled by every later iteration passing the aborted state through),
otherwise reuse-and-update or create, write the result into the target
slice, index it, and count it. -/
def stepPos (env : Env) (taskId : Nat × Nat) (files : List FileDTO)
    (transList : List (Option ClientFile)) (transIdx : List (Nat × Nat))
    (st : RunSt) (i : Nat) : RunSt :=
  if st.status = Status.aborted then st
  else if taskId.1 ≠ st.pair.1 ∨ taskId.2 ≠ st.pair.2 then
    { st with status := Status.aborted }
  else
    match files[i]? with
    | none => st
    | some f =>
      match lookupExisting transIdx transList f.id with
      | some file =>
          let file2 := reconcileExisting env f file
          { st with
            reused := if file.id ∈ st.reused then st.reused else st.reused ++ [file.id]
            target := st.target.set i (some file2)
            tIdx := mapSet st.tIdx file.id i
            numLoaded := st.numLoaded + 1 }
      | none =>
          let file := mkClientFile env st.nextUid f
          { st with
            target := st.target.set i (some file)
            tIdx := mapSet st.tIdx file.id i
            numLoaded := st.numLoaded + 1
            nextUid := st.nextUid + 1
            created := st.created ++ [st.nextUid] }

/-- The `await new Promise((r) => setTimeout(r, delay))` point after a
non-aborted batch (part_003:1259-1262): the event loop may run a concurrent
task that overwrites the store's `fetchTaskIdPair` (`newFetchTaskId` of a
superseding request, or another `filesFromBackend` writing its sub id). -/
def applyAwait (st : RunSt) : RunSt :=
  match st.sched with
  | [] => st
  | o :: rest => { st with sched := rest, pair := o.getD st.pair }

/-- One iteration of `for (const batchIndex of batchOrder)`
(part_003:1180-1263): skip everything once aborted, otherwise run the
position loop over the clamped range and, unless it aborted, suspend. -/
def stepBatch (env : Env) (taskId : Nat × Nat) (files : List FileDTO)
    (transList : List (Option ClientFile)) (transIdx : List (Nat × Nat))
    (absStart : Int) (B total : Nat) (st : RunSt) (k : Int) : RunSt :=
  if st.status = Status.aborted then st
  else
    let st1 := (batchPositions absStart B total k).foldl
      (stepPos env taskId files transList transIdx) st
    if st1.status = Status.aborted then st1 else applyAwait st1

/-- The value returned by `filesFromBackend` together with the store state
it leaves behind and the event logs of the run. -/
structure FFBResult where
  state : FileStoreState
  newFiles : List (Option ClientFile)
  newIndex : List (Nat × Nat)
  status : Status
  reused : List Nat
  disposed : List Nat
  created : List Nat
  nextUid : Nat
deriving DecidableEq, Repr

/-- The batch loop of one `filesFromBackend` run (part_003:1136-1263): capture
`taskId = [fetchTaskIdPair[0], performance.now()]`, snapshot the transition
list and index, start from a working array of `total` holes and an empty
working index, and fold the batch step over the proximity-ordered batches. -/
def ffbRunOn (env : Env) (s : FileStoreState) (nextUid : Nat)
    (backendFiles : List FileDTO) (batchSize firstItem subId : Nat)
    (sched : List (Option (Nat × Nat))) (order : List Int) : RunSt :=
  order.foldl
    (stepBatch env (s.fetchTaskIdPair.1, subId) backendFiles s.fileList s.index
      (absoluteBatchStart backendFiles.length batchSize firstItem) batchSize
      backendFiles.length)
    { target := List.replicate backendFiles.length none
      tIdx := []
      pair := (s.fetchTaskIdPair.1, subId)
      numLoaded := 0
      reused := []
      status := Status.success
      nextUid := nextUid
      created := []
      sched := sched }

/-- The batch loop over the full proximity-ordered visiting order. -/
def ffbRun (env : Env) (s : FileStoreState) (nextUid : Nat) (backendFiles : List FileDTO)
    (batchSize firstItem subId : Nat) (sched : List (Option (Nat × Nat))) : RunSt :=
  ffbRunOn env s nextUid backendFiles batchSize firstItem subId sched
    (ffbOrder backendFiles.length batchSize firstItem)

/-- `FileStore.filesFromBackend` (part_003:1126-1283).

Inputs beyond the store state: `nextUid` (the uid allocator), `backendFiles`,
`updateObservable`, `batchSize`, `firstItem` (= `uiStore.firstItem`), `subId`
(the fresh `performance.now()` written into `fetchTaskIdPair[1]`), and the
concurrency schedule `sched`.

After the batch loop (`ffbRun`), as in the source: clamp `numLoadedFiles` to
the target length, dispose every transition-snapshot entity whose id was
never marked reused, clear `fetchTaskIdPair[1]` unless aborted, and leave the
results in the live list/index exactly when `updateObservable` is set (when
it is not, the live list and index were never touched: the fold wrote into
the fresh `newArray` and `new Map()`). -/
def filesFromBackend (env : Env) (s : FileStoreState) (nextUid : Nat)
    (backendFiles : List FileDTO) (updateObservable : Bool)
    (batchSize firstItem subId : Nat) (sched : List (Option (Nat × Nat))) :
    FFBResult :=
  let stF := ffbRun env s nextUid backendFiles batchSize firstItem subId sched
  let numLoadedF := min stF.numLoaded stF.target.length
  let disposed := s.fileList.filterMap
    (fun of => of.bind (fun g => if g.id ∈ stF.reused then none else some g.uid))
  let pairF := if stF.status ≠ Status.aborted then (stF.pair.1, 0) else stF.pair
  { state :=
      { s with
        fileList := if updateObservable then stF.target else s.fileList
        index := if updateObservable then stF.tIdx else s.index
        fetchTaskIdPair := pairF
        numLoadedFiles := numLoadedF }
    newFiles := stF.target
    newIndex := stF.tIdx
    status := stF.status
    reused := stF.reused
    disposed := disposed
    created := stF.created
    nextUid := stF.nextUid }

/-! ## Index rebuilds and counters -/

/-- The body of the index rebuild loop: walk the remaining slots, mapping
each defined file's id to its absolute position. -/
def buildIndexAux : Nat → List (Option ClientFile) → List (Nat × Nat) → List (Nat × Nat)
  | _, [], m => m
  | i, of :: rest, m =>
      buildIndexAux (i + 1) rest
        (match of with
          | some f => mapSet m f.id i
          | none => m)

/-- The index rebuild loop shared by `replaceFileList` (part_003:903-909) and
`updateFileListState` (part_003:1293-1305): clear, then walk the list and map
each defined file's id to its position. -/
def buildIndex (l : List (Option ClientFile)) : List (Nat × Nat) :=
  buildIndexAux 0 l []

/-- `FileStore.replaceFileList` (part_003:895-911): replace the list, rebuild
the index, and count the defined files into `numLoadedFiles`. -/
def replaceFileList (s : FileStoreState) (newFiles : List (Option ClientFile)) :
    FileStoreState :=
  { s with
    fileList := newFiles
    index := buildIndex newFiles
    numLoadedFiles := (newFiles.filterMap id).length }

/-- `FileStore.updateFileListState` (part_003:1290-1313): rebuild the index
and recompute the broken/untagged counters (a broken file is not counted
untagged — the source's `else if`), scoped by the current content mode. -/
def updateFileListState (s : FileStoreState) : FileStoreState :=
  let missing := (s.fileList.filterMap id).countP (fun f => f.isBroken.getD false)
  let untagged := (s.fileList.filterMap id).countP
    (fun f => !(f.isBroken.getD false) && f.tags.isEmpty)
  let s1 := { s with index := buildIndex s.fileList, numMissingFiles := missing }
  if s.content = Content.all then
    { s1 with numTotalFiles := s.fileList.length, numUntaggedFiles := untagged }
  else if s.content = Content.untagged then
    { s1 with numUntaggedFiles := s.fileList.length }
  else s1

/-! ## Existence verification (the post-reconciliation pass) -/

/-- `ClientFile.setBroken` (part_002:172-175), restricted to the observable
flag. -/
def setBroken (f : ClientFile) (b : Bool) : ClientFile :=
  { f with isBroken := some b }

/-- The net effect of the existence probes
(`clientFile.setBroken(!(await fse.pathExists(clientFile.absolutePath)))`),
applied to every defined file of a list (part_003:1083-1088, 783-798). -/
def applyExistenceChecks (probe : Nat → Bool) (l : List (Option ClientFile)) :
    List (Option ClientFile) :=
  l.map (Option.map (fun f => setBroken f (!(probe f.absolutePath))))

/-- The existence-check tail of `updateFromBackend` (part_003:1080-1103):
`updateFileListState` is run once before the probes and once after them; the
probe results are applied to every defined file with no staleness re-check
anywhere on this path. -/
def updateFromBackendExistencePhase (probe : Nat → Bool) (s : FileStoreState) :
    FileStoreState :=
  let s1 := updateFileListState s
  let s2 := { s1 with fileList := applyExistenceChecks probe s1.fileList }
  updateFileListState s2

/-- The tail of `fetchMissingFiles` after its `filesFromBackend` call
(part_003:783-815).  The probes run unconditionally, and their effects land
before the staleness re-check: `this.numLoadedFiles = 0` (line 785) then the
stride writes `setNumLoadedFiles(i)` (line 796, the last completed one being
`i = total - 1` — the probes are modelled completing in order), and
`clientFile.setBroken(!exists)` (line 794) mutates the probed entities,
which — `filesFromBackend` having been called with `updateObservable =
false` — are, for every reused id, the very objects still sitting in the
live `fileList` (value-level: every live entity sharing a probed entity's
`uid` carries the flag write; reconciliation preserves `absolutePath`, so
the probed path is the live one).  Only then — and only if the content is
still `Missing` and the fetch epoch is still `start` — is the file list
replaced by the broken files and the missing counter set; when stale, the
replacement and the counter write are skipped but the earlier writes
remain.  Returns the store state and the probed `newFiles`. -/
def fetchMissingApplyPhase (probe : Nat → Bool) (start : Nat)
    (s : FileStoreState) (newFiles : List (Option ClientFile)) :
    FileStoreState × List (Option ClientFile) :=
  let checked := applyExistenceChecks probe newFiles
  let total := (newFiles.filterMap id).length
  let live := s.fileList.map (Option.map (fun g =>
    if (newFiles.filterMap id).any (fun f => f.uid == g.uid) then
      setBroken g (!(probe g.absolutePath))
    else g))
  let s1 := { s with
    fileList := live
    numLoadedFiles := if total = 0 then 0 else total - 1 }
  if s1.content ≠ Content.missing ∨ s1.fetchTaskIdPair.1 ≠ start then (s1, checked)
  else
    let missingClientFiles := checked.filter
      (fun of => (of.map (fun f => f.isBroken.getD false)).getD false)
    let s2 := replaceFileList s1 missingClientFiles
    ({ s2 with numMissingFiles := missingClientFiles.length }, checked)

/-! ## Fetch entry points and the estimator -/

/-- `FileStore.newFetchTaskId` (part_003:665-671): reset the load counter and
publish `(now, 1)` as the authoritative pair; returns the generated id. -/
def newFetchTaskId (s : FileStoreState) (now : Nat) : FileStoreState × Nat :=
  ({ s with numLoadedFiles := 0, fetchTaskIdPair := (now, 1) }, now)

/-- `FileStore.setAverageFetchTime` (part_003:548-567): `(prev + duration)/2`
when a previous value exists, else the duration itself.  The classification
key (`activeAverageFetchTimeKey`, derived from the UI search criteria) is a
parameter. -/
def setAverageFetchTime (s : FileStoreState) (key : Nat) (duration : Rat) :
    FileStoreState :=
  let prev := (mapGet s.averageFetchTimes key).getD duration
  let average := (prev + duration) / 2
  { s with averageFetchTimes := mapSet s.averageFetchTimes key average }

/-- `FileStore.clearFileList` (part_003:879-887): dispose every file, reset
the counter and clear list and index.  Returns the state and the dispose log. -/
def clearFileList (s : FileStoreState) : FileStoreState × List Nat :=
  ({ s with fileList := [], index := [], numLoadedFiles := 0 },
   s.fileList.filterMap (Option.map ClientFile.uid))

/-- Result of `updateFromBackend`: final state, run status, fresh-uid counter,
and the dispose log of the run. -/
structure UFBResult where
  state : FileStoreState
  status : Status
  nextUid : Nat
  disposed : List Nat
deriving Repr

/-- `FileStore.updateFromBackend` (part_003:1039-1103): on an empty record
set clear everything and finish the task (`fetchTaskIdPair[1] = 0`);
otherwise filter out records with hidden tags, reconcile through
`filesFromBackend` with `updateObservable = true`, and — only on success —
run the existence-verification phase.  (The `uiStore` scroll recovery and
selection cleanup have no counterpart in the modelled state.) -/
def updateFromBackend (env : Env) (s : FileStoreState) (nextUid : Nat)
    (backendFiles : List FileDTO) (batchSize firstItem subId : Nat)
    (sched : List (Option (Nat × Nat))) (probe : Nat → Bool) : UFBResult :=
  if backendFiles.isEmpty then
    let s1 := { s with fetchTaskIdPair := (s.fetchTaskIdPair.1, 0) }
    let (s2, log) := clearFileList s1
    { state := s2, status := Status.success, nextUid := nextUid, disposed := log }
  else
    let files := backendFiles.filter (fun f => !(f.tags.any env.hiddenTag))
    let r := filesFromBackend env s nextUid files true batchSize firstItem subId sched
    if r.status ≠ Status.success then
      { state := r.state, status := r.status, nextUid := r.nextUid, disposed := r.disposed }
    else
      { state := updateFromBackendExistencePhase probe r.state
        status := Status.success
        nextUid := r.nextUid
        disposed := r.disposed }

/-- Result of a fetch entry point: the state left behind, the exception (if
any) propagated to the entry point's own caller, and the errors it logged to
the console instead. -/
structure EntryResult where
  state : FileStoreState
  thrownToCaller : Option Nat
  loggedErrors : List Nat
  nextUid : Nat
deriving Repr

/-- `FileStore.fetchAllFiles` (part_003:685-709): set the content, issue a
new fetch task id, await the backend (`backendResult`; during that await a
concurrent task may overwrite the pair — `interPair`), record the duration,
and hand over to `updateFromBackend` only if the task id is still current.
The whole body is wrapped in `try { ... } catch (err) {
console.error('Could not load all files', err) }`: a backend rejection is
caught and logged, never rethrown to the entry point's caller. -/
def fetchAllFiles (env : Env) (s : FileStoreState) (nextUid : Nat)
    (now : Nat) (backendResult : Except Nat (List FileDTO))
    (interPair : Option (Nat × Nat)) (key : Nat) (duration : Rat)
    (batchSize firstItem subId : Nat) (sched : List (Option (Nat × Nat)))
    (probe : Nat → Bool) : EntryResult :=
  let s1 := { s with content := Content.all }
  let (s2, start) := newFetchTaskId s1 now
  match backendResult with
  | .error e =>
      let s3 := match interPair with
        | some p => { s2 with fetchTaskIdPair := p }
        | none => s2
      { state := s3, thrownToCaller := none, loggedErrors := [e], nextUid := nextUid }
  | .ok fetchedFiles =>
      let s3 := match interPair with
        | some p => { s2 with fetchTaskIdPair := p }
        | none => s2
      let s4 := setAverageFetchTime s3 key duration
      if start = s4.fetchTaskIdPair.1 then
        let r := updateFromBackend env s4 nextUid fetchedFiles batchSize firstItem subId
          sched probe
        { state := r.state, thrownToCaller := none, loggedErrors := [], nextUid := r.nextUid }
      else
        { state := s4, thrownToCaller := none, loggedErrors := [], nextUid := nextUid }

/-- `FileStore.fetchFilesByQuery` (part_003:831-865): with an empty criteria
list it delegates to `fetchAllFiles`; otherwise the same shape around
`backend.searchFiles`, with its own `try`/`catch` that logs
(`console.log('Could not find files based on criteria', e)`) and never
rethrows. -/
def fetchFilesByQuery (env : Env) (s : FileStoreState) (nextUid : Nat)
    (criteriaEmpty : Bool) (now : Nat) (searchResult : Except Nat (List FileDTO))
    (interPair : Option (Nat × Nat)) (key : Nat) (duration : Rat)
    (batchSize firstItem subId : Nat) (sched : List (Option (Nat × Nat)))
    (probe : Nat → Bool) : EntryResult :=
  if criteriaEmpty then
    fetchAllFiles env s nextUid now searchResult interPair key duration
      batchSize firstItem subId sched probe
  else
    let s1 := { s with content := Content.query }
    let (s2, start) := newFetchTaskId s1 now
    match searchResult with
    | .error e =>
        let s3 := match interPair with
          | some p => { s2 with fetchTaskIdPair := p }
          | none => s2
        { state := s3, thrownToCaller := none, loggedErrors := [e], nextUid := nextUid }
    | .ok fetchedFiles =>
        let s3 := match interPair with
          | some p => { s2 with fetchTaskIdPair := p }
          | none => s2
        let s4 := setAverageFetchTime s3 key duration
        if start = s4.fetchTaskIdPair.1 then
          let r := updateFromBackend env s4 nextUid fetchedFiles batchSize firstItem subId
            sched probe
          { state := r.state, thrownToCaller := none, loggedErrors := [], nextUid := r.nextUid }
        else
          { state := s4, thrownToCaller := none, loggedErrors := [], nextUid := nextUid }

/-! ## The estimator sequence of claim C8 -/

/-- The alternating duration sequence 100, 200, 100, 200, ... -/
def altDuration (k : Nat) : Rat := if k % 2 = 0 then 100 else 200

/-- A store with nothing recorded, used as the estimator's starting point. -/
def emptyStore : FileStoreState :=
  { fileList := []
    index := []
    fetchTaskIdPair := (0, 0)
    numLoadedFiles := 0
    numTotalFiles := 0
    numUntaggedFiles := 0
    numMissingFiles := 0
    content := Content.all
    averageFetchTimes := [] }

/-- The store after recording the first `n` alternating durations under key 0. -/
def estimatorState : Nat → FileStoreState
  | 0 => emptyStore
  | n + 1 => setAverageFetchTime (estimatorState n) 0 (altDuration n)

/-- The stored average after `n + 1` samples. -/
def storedAvg (n : Nat) : Rat :=
  (mapGet (estimatorState (n + 1)).averageFetchTimes 0).getD 0

/-! ## Basic lemmas about one position step -/

section RunLemmas

variable (env : Env) (taskId : Nat × Nat) (files : List FileDTO)
  (transList : List (Option ClientFile)) (transIdx : List (Nat × Nat))

theorem stepPos_of_aborted {st : RunSt} (h : st.status = Status.aborted) (i : Nat) :
    stepPos env taskId files transList transIdx st i = st := by
  simp [stepPos, h]

theorem stepPos_of_stale {st : RunSt} (h : st.status ≠ Status.aborted)
    (hp : taskId.1 ≠ st.pair.1 ∨ taskId.2 ≠ st.pair.2) (i : Nat) :
    stepPos env taskId files transList transIdx st i = { st with status := Status.aborted } := by
  simp [stepPos, h, hp]

theorem stepPos_reuse {st : RunSt} (h : st.status ≠ Status.aborted)
    (hp : taskId.1 = st.pair.1 ∧ taskId.2 = st.pair.2) {i : Nat} {f : FileDTO}
    (hf : files[i]? = some f) {g : ClientFile}
    (hg : lookupExisting transIdx transList f.id = some g) :
    stepPos env taskId files transList transIdx st i =
      { st with
        reused := if g.id ∈ st.reused then st.reused else st.reused ++ [g.id]
        target := st.target.set i (some (reconcileExisting env f g))
        tIdx := mapSet st.tIdx g.id i
        numLoaded := st.numLoaded + 1 } := by
  simp [stepPos, h, hp.1, hp.2, hf, hg]

theorem stepPos_create {st : RunSt} (h : st.status ≠ Status.aborted)
    (hp : taskId.1 = st.pair.1 ∧ taskId.2 = st.pair.2) {i : Nat} {f : FileDTO}
    (hf : files[i]? = some f)
    (hg : lookupExisting transIdx transList f.id = none) :
    stepPos env taskId files transList transIdx st i =
      { st with
        target := st.target.set i (some (mkClientFile env st.nextUid f))
        tIdx := mapSet st.tIdx (mkClientFile env st.nextUid f).id i
        numLoaded := st.numLoaded + 1
        nextUid := st.nextUid + 1
        created := st.created ++ [st.nextUid] } := by
  simp [stepPos, h, hp.1, hp.2, hf, hg, mkClientFile]

theorem stepPos_of_none {st : RunSt} (h : st.status ≠ Status.aborted)
    (hp : taskId.1 = st.pair.1 ∧ taskId.2 = st.pair.2) {i : Nat}
    (hf : files[i]? = none) :
    stepPos env taskId files transList transIdx st i = st := by
  simp [stepPos, h, hp.1, hp.2, hf]

/-- Case analysis exhausting `stepPos`. -/
theorem stepPos_cases (st : RunSt) (i : Nat) :
    stepPos env taskId files transList transIdx st i = st ∨
    stepPos env taskId files transList transIdx st i = { st with status := Status.aborted } ∨
    (st.status ≠ Status.aborted ∧ (taskId.1 = st.pair.1 ∧ taskId.2 = st.pair.2) ∧
      ∃ f, files[i]? = some f ∧
        ((∃ g, lookupExisting transIdx transList f.id = some g ∧
          stepPos env taskId files transList transIdx st i =
            { st with
              reused := if g.id ∈ st.reused then st.reused else st.reused ++ [g.id]
              target := st.target.set i (some (reconcileExisting env f g))
              tIdx := mapSet st.tIdx g.id i
              numLoaded := st.numLoaded + 1 }) ∨
        (lookupExisting transIdx transList f.id = none ∧
          stepPos env taskId files transList transIdx st i =
            { st with
              target := st.target.set i (some (mkClientFile env st.nextUid f))
              tIdx := mapSet st.tIdx (mkClientFile env st.nextUid f).id i
              numLoaded := st.numLoaded + 1
              nextUid := st.nextUid + 1
              created := st.created ++ [st.nextUid] }))) := by
  by_cases h : st.status = Status.aborted
  · exact Or.inl (stepPos_of_aborted env taskId files transList transIdx h i)
  by_cases hp : taskId.1 ≠ st.pair.1 ∨ taskId.2 ≠ st.pair.2
  · exact Or.inr (Or.inl (stepPos_of_stale env taskId files transList transIdx h hp i))
  have hp' : taskId.1 = st.pair.1 ∧ taskId.2 = st.pair.2 := by
    push_neg at hp
    exact hp
  cases hf : files[i]? with
  | none => exact Or.inl (stepPos_of_none env taskId files transList transIdx h hp' hf)
  | some f =>
    cases hg : lookupExisting transIdx transList f.id with
    | some g =>
        exact Or.inr (Or.inr ⟨h, hp', f, rfl, Or.inl
          ⟨g, hg, stepPos_reuse env taskId files transList transIdx h hp' hf hg⟩⟩)
    | none =>
        exact Or.inr (Or.inr ⟨h, hp', f, rfl, Or.inr
          ⟨hg, stepPos_create env taskId files transList transIdx h hp' hf hg⟩⟩)

theorem stepPos_pair (st : RunSt) (i : Nat) :
    (stepPos env taskId files transList transIdx st i).pair = st.pair := by
  rcases stepPos_cases env taskId files transList transIdx st i with h | h |
    ⟨_, _, _, _, ⟨_, _, h⟩ | ⟨_, h⟩⟩ <;> rw [h]

theorem stepPos_sched (st : RunSt) (i : Nat) :
    (stepPos env taskId files transList transIdx st i).sched = st.sched := by
  rcases stepPos_cases env taskId files transList transIdx st i with h | h |
    ⟨_, _, _, _, ⟨_, _, h⟩ | ⟨_, h⟩⟩ <;> rw [h]

theorem stepPos_target_length (st : RunSt) (i : Nat) :
    (stepPos env taskId files transList transIdx st i).target.length = st.target.length := by
  rcases stepPos_cases env taskId files transList transIdx st i with h | h |
    ⟨_, _, _, _, ⟨_, _, h⟩ | ⟨_, h⟩⟩ <;> simp [h]

theorem stepPos_nextUid_le (st : RunSt) (i : Nat) :
    st.nextUid ≤ (stepPos env taskId files transList transIdx st i).nextUid := by
  rcases stepPos_cases env taskId files transList transIdx st i with h | h |
    ⟨_, _, _, _, ⟨_, _, h⟩ | ⟨_, h⟩⟩ <;> simp [h]

theorem stepPos_target_frame (st : RunSt) {i j : Nat} (hij : j ≠ i) :
    (stepPos env taskId files transList transIdx st i).target[j]? = st.target[j]? := by
  rcases stepPos_cases env taskId files transList transIdx st i with h | h |
    ⟨_, _, _, _, ⟨_, _, h⟩ | ⟨_, h⟩⟩ <;>
    simp [h, List.getElem?_set_ne (fun hh => hij hh.symm)]

theorem stepPos_reused_mono (st : RunSt) (i : Nat) {id : Nat} (h : id ∈ st.reused) :
    id ∈ (stepPos env taskId files transList transIdx st i).reused := by
  rcases stepPos_cases env taskId files transList transIdx st i with hh | hh |
    ⟨_, _, _, _, ⟨g, _, hh⟩ | ⟨_, hh⟩⟩ <;> simp only [hh]
  · exact h
  · exact h
  · by_cases hm : g.id ∈ st.reused <;> simp [hm, h]
  · exact h

theorem stepPos_written_mono (st : RunSt) (i : Nat) {j : Nat} {f : ClientFile}
    (h : st.target[j]? = some (some f)) :
    ∃ f', (stepPos env taskId files transList transIdx st i).target[j]? = some (some f') := by
  rcases stepPos_cases env taskId files transList transIdx st i with hh | hh |
    ⟨_, _, rec, _, ⟨g, _, hh⟩ | ⟨_, hh⟩⟩
  · exact ⟨f, by rw [hh, h]⟩
  · exact ⟨f, by rw [hh, h]⟩
  · by_cases hij : j = i
    · subst hij
      refine ⟨reconcileExisting env rec g, ?_⟩
      have hlen : j < st.target.length := (List.getElem?_eq_some_iff.mp h).1
      simp [hh, List.getElem?_set_self hlen]
    · exact ⟨f, by
        rw [hh]
        simpa [List.getElem?_set_ne (fun hij' => hij hij'.symm)] using h⟩
  · by_cases hij : j = i
    · subst hij
      refine ⟨mkClientFile env st.nextUid rec, ?_⟩
      have hlen : j < st.target.length := (List.getElem?_eq_some_iff.mp h).1
      simp [hh, List.getElem?_set_self hlen]
    · exact ⟨f, by
        rw [hh]
        simpa [List.getElem?_set_ne (fun hij' => hij hij'.symm)] using h⟩

end RunLemmas

/-! ## Lemmas about the position fold of one batch -/

section PosFoldLemmas

variable (env : Env) (taskId : Nat × Nat) (files : List FileDTO)
  (transList : List (Option ClientFile)) (transIdx : List (Nat × Nat))

theorem foldPos_of_aborted {st : RunSt} (h : st.status = Status.aborted) (ps : List Nat) :
    ps.foldl (stepPos env taskId files transList transIdx) st = st := by
  induction ps with
  | nil => rfl
  | cons p ps ih =>
      rw [List.foldl_cons, stepPos_of_aborted env taskId files transList transIdx h, ih]

theorem foldPos_pair (st : RunSt) (ps : List Nat) :
    (ps.foldl (stepPos env taskId files transList transIdx) st).pair = st.pair := by
  induction ps generalizing st with
  | nil => rfl
  | cons p ps ih => rw [List.foldl_cons, ih, stepPos_pair]

theorem foldPos_sched (st : RunSt) (ps : List Nat) :
    (ps.foldl (stepPos env taskId files transList transIdx) st).sched = st.sched := by
  induction ps generalizing st with
  | nil => rfl
  | cons p ps ih => rw [List.foldl_cons, ih, stepPos_sched]

theorem foldPos_target_length (st : RunSt) (ps : List Nat) :
    (ps.foldl (stepPos env taskId files transList transIdx) st).target.length =
      st.target.length := by
  induction ps generalizing st with
  | nil => rfl
  | cons p ps ih => rw [List.foldl_cons, ih, stepPos_target_length]

theorem foldPos_nextUid_le (st : RunSt) (ps : List Nat) :
    st.nextUid ≤ (ps.foldl (stepPos env taskId files transList transIdx) st).nextUid := by
  induction ps generalizing st with
  | nil => exact le_rfl
  | cons p ps ih =>
      rw [List.foldl_cons]
      exact le_trans (stepPos_nextUid_le env taskId files transList transIdx st p) (ih _)

/-- With the authoritative pair equal to the captured task id, the position
fold never aborts. -/
theorem foldPos_status (st : RunSt) (ps : List Nat) (h : st.status = Status.success)
    (hp : st.pair = taskId) :
    (ps.foldl (stepPos env taskId files transList transIdx) st).status = Status.success := by
  induction ps generalizing st with
  | nil => exact h
  | cons p ps ih =>
      rw [List.foldl_cons]
      have hs : st.status ≠ Status.aborted := by rw [h]; intro hc; cases hc
      have hp' : taskId.1 = st.pair.1 ∧ taskId.2 = st.pair.2 := by rw [hp]; exact ⟨rfl, rfl⟩
      cases hf : files[p]? with
      | none =>
          rw [stepPos_of_none env taskId files transList transIdx hs hp' hf]
          exact ih st h hp
      | some f =>
          cases hg : lookupExisting transIdx transList f.id with
          | some g =>
              rw [stepPos_reuse env taskId files transList transIdx hs hp' hf hg]
              exact ih _ h hp
          | none =>
              rw [stepPos_create env taskId files transList transIdx hs hp' hf hg]
              exact ih _ h hp

theorem foldPos_target_frame (st : RunSt) (ps : List Nat) {j : Nat} (hj : j ∉ ps) :
    (ps.foldl (stepPos env taskId files transList transIdx) st).target[j]? =
      st.target[j]? := by
  induction ps generalizing st with
  | nil => rfl
  | cons p ps ih =>
      rw [List.foldl_cons, ih _ (fun hc => hj (List.mem_cons_of_mem p hc)),
        stepPos_target_frame env taskId files transList transIdx st
          (fun hc => hj (by rw [hc]; exact List.mem_cons_self p ps))]

theorem foldPos_reused_mono (st : RunSt) (ps : List Nat) {id : Nat} (h : id ∈ st.reused) :
    id ∈ (ps.foldl (stepPos env taskId files transList transIdx) st).reused := by
  induction ps generalizing st with
  | nil => exact h
  | cons p ps ih =>
      rw [List.foldl_cons]
      exact ih _ (stepPos_reused_mono env taskId files transList transIdx st p h)

theorem foldPos_written_mono (st : RunSt) (ps : List Nat) {j : Nat} {f : ClientFile}
    (h : st.target[j]? = some (some f)) :
    ∃ f', (ps.foldl (stepPos env taskId files transList transIdx) st).target[j]? =
      some (some f') := by
  induction ps generalizing st f with
  | nil => exact ⟨f, h⟩
  | cons p ps ih =>
      rw [List.foldl_cons]
      obtain ⟨f', hf'⟩ := stepPos_written_mono env taskId files transList transIdx st p h
      exact ih _ hf'

end PosFoldLemmas

/-! ## Lemmas about the batch fold -/

/-- A schedule with no concurrent interference: no suspension point
overwrites `fetchTaskIdPair`. -/
def CleanSched (sched : List (Option (Nat × Nat))) : Prop := ∀ x ∈ sched, x = none

section BatchFoldLemmas

variable (env : Env) (taskId : Nat × Nat) (files : List FileDTO)
  (transList : List (Option ClientFile)) (transIdx : List (Nat × Nat))
  (absStart : Int) (B total : Nat)

theorem applyAwait_fields (st : RunSt) :
    (applyAwait st).target = st.target ∧ (applyAwait st).tIdx = st.tIdx ∧
    (applyAwait st).status = st.status ∧ (applyAwait st).reused = st.reused ∧
    (applyAwait st).created = st.created ∧ (applyAwait st).nextUid = st.nextUid ∧
    (applyAwait st).numLoaded = st.numLoaded := by
  cases h : st.sched <;> simp [applyAwait, h]

theorem applyAwait_clean {st : RunSt} (h : CleanSched st.sched) :
    (applyAwait st).pair = st.pair ∧ CleanSched (applyAwait st).sched := by
  cases hs : st.sched with
  | nil =>
      refine ⟨by simp [applyAwait, hs], ?_⟩
      intro x hx
      exact h x (by simp [applyAwait, hs] at hx)
  | cons o rest =>
      have ho : o = none := h o (by rw [hs]; exact List.mem_cons_self o rest)
      subst ho
      refine ⟨by simp [applyAwait, hs], ?_⟩
      intro x hx
      have hx' : x ∈ rest := by simpa [applyAwait, hs] using hx
      exact h x (by rw [hs]; exact List.mem_cons_of_mem _ hx')

theorem stepBatch_of_aborted {st : RunSt} (h : st.status = Status.aborted) (k : Int) :
    stepBatch env taskId files transList transIdx absStart B total st k = st := by
  simp [stepBatch, h]

/-- Under a matching pair and success status, one batch step is the position
fold followed by the suspension point. -/
theorem stepBatch_eq_of_ok {st : RunSt} (h : st.status = Status.success)
    (hp : st.pair = taskId) (k : Int) :
    stepBatch env taskId files transList transIdx absStart B total st k =
      applyAwait ((batchPositions absStart B total k).foldl
        (stepPos env taskId files transList transIdx) st) := by
  have hs : st.status ≠ Status.aborted := by rw [h]; intro hc; cases hc
  have h1 := foldPos_status env taskId files transList transIdx st
    (batchPositions absStart B total k) h hp
  simp only [stepBatch, if_neg hs]
  rw [if_neg (by rw [h1]; intro hc; cases hc)]

theorem foldBatch_clean_inv {st : RunSt} (bs : List Int)
    (h : st.status = Status.success) (hp : st.pair = taskId) (hcl : CleanSched st.sched) :
    (bs.foldl (stepBatch env taskId files transList transIdx absStart B total) st).status =
        Status.success ∧
      (bs.foldl (stepBatch env taskId files transList transIdx absStart B total) st).pair =
        taskId ∧
      CleanSched
        (bs.foldl (stepBatch env taskId files transList transIdx absStart B total) st).sched := by
  induction bs generalizing st with
  | nil => exact ⟨h, hp, hcl⟩
  | cons k bs ih =>
      rw [List.foldl_cons,
        stepBatch_eq_of_ok env taskId files transList transIdx absStart B total h hp k]
      set st1 := (batchPositions absStart B total k).foldl
        (stepPos env taskId files transList transIdx) st with hst1
      have hS : st1.status = Status.success :=
        foldPos_status env taskId files transList transIdx st _ h hp
      have hP : st1.pair = taskId := by
        rw [hst1, foldPos_pair]; exact hp
      have hC : CleanSched st1.sched := by
        rw [hst1, foldPos_sched]; exact hcl
      obtain ⟨hap, hacl⟩ := applyAwait_clean hC
      exact ih ((applyAwait_fields st1).2.2.1.trans hS) (hap.trans hP) hacl

theorem foldBatch_target_length (st : RunSt) (bs : List Int) :
    (bs.foldl (stepBatch env taskId files transList transIdx absStart B total) st).target.length =
      st.target.length := by
  induction bs generalizing st with
  | nil => rfl
  | cons k bs ih =>
      rw [List.foldl_cons, ih]
      by_cases h : st.status = Status.aborted
      · rw [stepBatch_of_aborted env taskId files transList transIdx absStart B total h]
      · simp only [stepBatch, if_neg h]
        set st1 := (batchPositions absStart B total k).foldl
          (stepPos env taskId files transList transIdx) st
        have hlen : st1.target.length = st.target.length :=
          foldPos_target_length env taskId files transList transIdx st _
        by_cases h1 : st1.status = Status.aborted
        · rw [if_pos h1]; exact hlen
        · rw [if_neg h1, (applyAwait_fields st1).1]; exact hlen

theorem foldBatch_nextUid_le (st : RunSt) (bs : List Int) :
    st.nextUid ≤
      (bs.foldl (stepBatch env taskId files transList transIdx absStart B total) st).nextUid := by
  induction bs generalizing st with
  | nil => exact le_rfl
  | cons k bs ih =>
      rw [List.foldl_cons]
      refine le_trans ?_ (ih _)
      by_cases h : st.status = Status.aborted
      · rw [stepBatch_of_aborted env taskId files transList transIdx absStart B total h]
      · simp only [stepBatch, if_neg h]
        set st1 := (batchPositions absStart B total k).foldl
          (stepPos env taskId files transList transIdx) st
        have hle : st.nextUid ≤ st1.nextUid :=
          foldPos_nextUid_le env taskId files transList transIdx st _
        by_cases h1 : st1.status = Status.aborted
        · rw [if_pos h1]; exact hle
        · rw [if_neg h1, (applyAwait_fields st1).2.2.2.2.2.1]; exact hle

theorem foldBatch_reused_mono (st : RunSt) (bs : List Int) {id : Nat} (h : id ∈ st.reused) :
    id ∈ (bs.foldl (stepBatch env taskId files transList transIdx absStart B total) st).reused := by
  induction bs generalizing st with
  | nil => exact h
  | cons k bs ih =>
      rw [List.foldl_cons]
      refine ih _ ?_
      by_cases hab : st.status = Status.aborted
      · rw [stepBatch_of_aborted env taskId files transList transIdx absStart B total hab]
        exact h
      · simp only [stepBatch, if_neg hab]
        set st1 := (batchPositions absStart B total k).foldl
          (stepPos env taskId files transList transIdx) st
        have hm : id ∈ st1.reused :=
          foldPos_reused_mono env taskId files transList transIdx st _ h
        by_cases h1 : st1.status = Status.aborted
        · rw [if_pos h1]; exact hm
        · rw [if_neg h1, (applyAwait_fields st1).2.2.2.1]; exact hm

theorem foldBatch_written_mono (st : RunSt) (bs : List Int) {j : Nat} {f : ClientFile}
    (h : st.target[j]? = some (some f)) :
    ∃ f', (bs.foldl
      (stepBatch env taskId files transList transIdx absStart B total) st).target[j]? =
        some (some f') := by
  induction bs generalizing st f with
  | nil => exact ⟨f, h⟩
  | cons k bs ih =>
      rw [List.foldl_cons]
      by_cases hab : st.status = Status.aborted
      · rw [stepBatch_of_aborted env taskId files transList transIdx absStart B total hab]
        exact ih _ h
      · simp only [stepBatch, if_neg hab]
        set st1 := (batchPositions absStart B total k).foldl
          (stepPos env taskId files transList transIdx) st
        obtain ⟨f', hf'⟩ := foldPos_written_mono env taskId files transList transIdx st _ h
        by_cases h1 : st1.status = Status.aborted
        · rw [if_pos h1]; exact ih _ hf'
        · rw [if_neg h1]
          exact ih _ (show (applyAwait st1).target[j]? = some (some f') by
            rw [(applyAwait_fields st1).1]; exact hf')

theorem foldBatch_target_frame (st : RunSt) (bs : List Int) {j : Nat}
    (hj : ∀ k ∈ bs, j ∉ batchPositions absStart B total k) :
    (bs.foldl (stepBatch env taskId files transList transIdx absStart B total) st).target[j]? =
      st.target[j]? := by
  induction bs generalizing st with
  | nil => rfl
  | cons k bs ih =>
      rw [List.foldl_cons, ih _ (fun k' hk' => hj k' (List.mem_cons_of_mem k hk'))]
      by_cases hab : st.status = Status.aborted
      · rw [stepBatch_of_aborted env taskId files transList transIdx absStart B total hab]
      · simp only [stepBatch, if_neg hab]
        set st1 := (batchPositions absStart B total k).foldl
          (stepPos env taskId files transList transIdx) st
        have hfr : st1.target[j]? = st.target[j]? :=
          foldPos_target_frame env taskId files transList transIdx st _
            (hj k (List.mem_cons_self k bs))
        by_cases h1 : st1.status = Status.aborted
        · rw [if_pos h1]; exact hfr
        · rw [if_neg h1, (applyAwait_fields st1).1]; exact hfr

end BatchFoldLemmas

/-! ## Geometry of the batch partition -/

section Geometry

theorem jsCeilDiv_ge {y : Int} {B : Nat} (hB : 1 ≤ B) : y ≤ B * jsCeilDiv y B := by
  have hBpos : (0 : Int) < B := by exact_mod_cast hB
  have h : (B : Int) * ((-y).ediv B) + (-y).emod B = -y := Int.ediv_add_emod (-y) B
  have h2 : 0 ≤ (-y).emod B := Int.emod_nonneg _ hBpos.ne'
  unfold jsCeilDiv
  linarith [h, h2]

theorem jsCeilDiv_le {y : Int} {B : Nat} (hB : 1 ≤ B) :
    B * jsCeilDiv y B ≤ y + B - 1 := by
  have hBpos : (0 : Int) < B := by exact_mod_cast hB
  have h : (B : Int) * ((-y).ediv B) + (-y).emod B = -y := Int.ediv_add_emod (-y) B
  have h2 : (-y).emod B < B := Int.emod_lt_of_pos _ hBpos
  unfold jsCeilDiv
  linarith [h, h2]

theorem jsCeilDiv_add_mul (y : Int) (k : Int) {B : Nat} (hB : 1 ≤ B) :
    jsCeilDiv (y + k * B) B = jsCeilDiv y B + k := by
  have hBpos : (0 : Int) < B := by exact_mod_cast hB
  unfold jsCeilDiv
  have h1 : -(y + k * B) = -y + (-k) * (B : Int) := by ring
  rw [h1]
  have h2 : (-y + (-k) * (B : Int)).ediv B = (-y).ediv B + (-k) :=
    Int.add_mul_ediv_right (-y) (-k) hBpos.ne'
  rw [h2]
  ring

theorem jsCeilDiv_pos {y : Int} {B : Nat} (hB : 1 ≤ B) (hy : 1 ≤ y) :
    1 ≤ jsCeilDiv y B := by
  by_contra h
  push_neg at h
  have h1 := jsCeilDiv_ge hB (y := y)
  have hBpos : (0 : Int) < B := by exact_mod_cast hB
  have hle : jsCeilDiv y B ≤ 0 := by omega
  nlinarith

/-- The real origin of batch 0 is within `(-B, 0]`. -/
theorem absoluteBatchStart_bounds (total B firstItem : Nat) (hB : 1 ≤ B) :
    -(B : Int) < absoluteBatchStart total B firstItem ∧
      absoluteBatchStart total B firstItem ≤ 0 := by
  unfold absoluteBatchStart initialBatchIndex
  have h1 := jsCeilDiv_ge hB (y := initialBatchStart total B firstItem)
  have h2 := jsCeilDiv_le hB (y := initialBatchStart total B firstItem)
  constructor <;> linarith

/-- Membership in the clamped position range of a batch, in integer form. -/
theorem mem_batchPositions {absStart : Int} {B total : Nat} {k : Int} {i : Nat} :
    i ∈ batchPositions absStart B total k ↔
      absStart + k * B ≤ (i : Int) ∧ (i : Int) ≤ absStart + k * B + B - 1 ∧
        (i : Int) < total := by
  simp only [batchPositions, List.mem_range'_1]
  omega

theorem batchPositions_lt_total {absStart : Int} {B total : Nat} {k : Int} {i : Nat}
    (h : i ∈ batchPositions absStart B total k) : i < total := by
  have := (mem_batchPositions.mp h).2.2
  exact_mod_cast this

/-- Distinct batches have disjoint position ranges. -/
theorem batchPositions_disjoint {absStart : Int} {B total : Nat} {k k' : Int} {i : Nat}
    (hB : 1 ≤ B)
    (h : i ∈ batchPositions absStart B total k)
    (h' : i ∈ batchPositions absStart B total k') : k = k' := by
  obtain ⟨h1, h2, -⟩ := mem_batchPositions.mp h
  obtain ⟨h1', h2', -⟩ := mem_batchPositions.mp h'
  have hBpos : (0 : Int) < B := by exact_mod_cast hB
  by_contra hne
  rcases lt_or_gt_of_ne hne with hlt | hlt
  · have hk : k + 1 ≤ k' := hlt
    have : (k + 1) * (B : Int) ≤ k' * B :=
      mul_le_mul_of_nonneg_right (by omega) (by omega)
    nlinarith
  · have hk : k' + 1 ≤ k := hlt
    have : (k' + 1) * (B : Int) ≤ k * B :=
      mul_le_mul_of_nonneg_right (by omega) (by omega)
    nlinarith

/-- Every position of `[0, total)` lies in the range of a batch index inside
`[0, totalBatches)`. -/
theorem batchPositions_cover {total B : Nat} (firstItem : Nat) (hB : 1 ≤ B) {i : Nat}
    (hi : i < total) :
    ∃ k : Int, 0 ≤ k ∧ k < totalBatches total B firstItem ∧
      i ∈ batchPositions (absoluteBatchStart total B firstItem) B total k := by
  set a := absoluteBatchStart total B firstItem with ha
  obtain ⟨hagt, hale⟩ := absoluteBatchStart_bounds total B firstItem hB
  have hBpos : (0 : Int) < B := by exact_mod_cast hB
  have hit : ((i : Int)) < total := by exact_mod_cast hi
  have hq : (B : Int) * (((i : Int) - a).ediv B) + ((i : Int) - a).emod B = (i : Int) - a :=
    Int.ediv_add_emod _ _
  have hr0 : 0 ≤ ((i : Int) - a).emod B := Int.emod_nonneg _ hBpos.ne'
  have hrB : ((i : Int) - a).emod B < B := Int.emod_lt_of_pos _ hBpos
  refine ⟨((i : Int) - a).ediv B, ?_, ?_, ?_⟩
  · exact Int.ediv_nonneg (by omega) (by omega)
  · have htb := jsCeilDiv_ge hB (y := (total : Int) - a)
    have hlt : (B : Int) * (((i : Int) - a).ediv B) <
        (B : Int) * totalBatches total B firstItem := by
      unfold totalBatches
      calc (B : Int) * (((i : Int) - a).ediv B) ≤ (i : Int) - a := by linarith
        _ < (total : Int) - a := by linarith
        _ ≤ (B : Int) * jsCeilDiv ((total : Int) - a) B := htb
    exact lt_of_mul_lt_mul_left hlt (by omega)
  · rw [mem_batchPositions]
    refine ⟨by linarith, by linarith, hit⟩

/-- Every batch index of `[0, totalBatches)` has a nonempty clamped range
(provided there is at least one record). -/
theorem batchPositions_nonempty {total B firstItem : Nat} (hB : 1 ≤ B)
    (htotal : 1 ≤ total) {k : Int} (hk0 : 0 ≤ k)
    (hk : k < totalBatches total B firstItem) :
    ∃ i : Nat, i ∈ batchPositions (absoluteBatchStart total B firstItem) B total k := by
  obtain ⟨hagt, hale⟩ := absoluteBatchStart_bounds total B firstItem hB
  have hBpos : (0 : Int) < B := by exact_mod_cast hB
  have ht : (1 : Int) ≤ total := by exact_mod_cast htotal
  have hub : absoluteBatchStart total B firstItem + k * B ≤ (total : Int) - 1 := by
    have h2 := jsCeilDiv_le hB (y := (total : Int) - absoluteBatchStart total B firstItem)
    have hk' : k + 1 ≤ totalBatches total B firstItem := hk
    unfold totalBatches at hk'
    have hmul : (k + 1) * (B : Int) ≤
        jsCeilDiv ((total : Int) - absoluteBatchStart total B firstItem) B * B :=
      mul_le_mul_of_nonneg_right (by omega) (by omega)
    nlinarith
  have hkB : 0 ≤ k * (B : Int) := mul_nonneg hk0 (by omega)
  have hlb : 0 ≤ absoluteBatchStart total B firstItem + k * B + B - 1 := by linarith
  refine ⟨(max (absoluteBatchStart total B firstItem + k * B) 0).toNat, ?_⟩
  rw [mem_batchPositions]
  omega

/-- With at least one record, the initial batch index is a valid batch index. -/
theorem initialBatchIndex_mem {total B : Nat} (firstItem : Nat) (hB : 1 ≤ B)
    (htotal : 1 ≤ total) :
    0 ≤ initialBatchIndex total B firstItem ∧
      initialBatchIndex total B firstItem < totalBatches total B firstItem := by
  have hBpos : (0 : Int) < B := by exact_mod_cast hB
  have ht : (1 : Int) ≤ total := by exact_mod_cast htotal
  have hclamp : 0 ≤ ffbInitialIndex total firstItem ∧
      ffbInitialIndex total firstItem ≤ (total : Int) - 1 := by
    unfold ffbInitialIndex jsClamp
    omega
  have hhalf : ((B / 2 : Nat) : Int) ≤ (B : Int) - 1 := by
    have h2 : B / 2 < B := Nat.div_lt_self (by omega) (by omega)
    exact_mod_cast Nat.le_sub_one_of_lt h2
  have hhalf0 : 0 ≤ ((B / 2 : Nat) : Int) := by positivity
  have hiBS1 : -((B : Int) - 1) ≤ initialBatchStart total B firstItem := by
    unfold initialBatchStart
    omega
  have hiBS2 : initialBatchStart total B firstItem ≤ (total : Int) - 1 := by
    unfold initialBatchStart
    omega
  constructor
  · by_contra h
    push_neg at h
    have h1 := jsCeilDiv_ge hB (y := initialBatchStart total B firstItem)
    have hle : initialBatchIndex total B firstItem ≤ -1 := by
      unfold initialBatchIndex at h ⊢
      omega
    have hmul : (B : Int) * initialBatchIndex total B firstItem ≤ (B : Int) * (-1) :=
      mul_le_mul_of_nonneg_left (by omega) (by omega)
    unfold initialBatchIndex at h1 hmul
    linarith
  · have hdecomp : totalBatches total B firstItem =
        initialBatchIndex total B firstItem +
          jsCeilDiv ((total : Int) - initialBatchStart total B firstItem) B := by
      unfold totalBatches absoluteBatchStart
      have hrw : (total : Int) - (initialBatchStart total B firstItem -
          B * initialBatchIndex total B firstItem) =
          ((total : Int) - initialBatchStart total B firstItem) +
            initialBatchIndex total B firstItem * B := by ring
      rw [hrw, jsCeilDiv_add_mul _ _ hB]
      ring
    have hpos : 1 ≤ jsCeilDiv ((total : Int) - initialBatchStart total B firstItem) B :=
      jsCeilDiv_pos hB (by omega)
    omega

end Geometry

/-! ## Characterisation of the batch visiting order -/

section OrderSpec

/-- What one loop iteration at `offset = t ≥ 1` appends: the after-neighbour
when still in range, then the before-neighbour when still non-negative. -/
def pushAt (iBI tB : Int) (t : Nat) : List Int :=
  (if iBI + t < tB then [iBI + (t : Int)] else []) ++
    (if 0 ≤ iBI - t then [iBI - (t : Int)] else [])

/-- The elements appended by the loop iterations at offsets
`o, o + 1, ..., o + m - 1`. -/
def specFrom (iBI tB : Int) : Nat → Nat → List Int
  | _, 0 => []
  | o, m + 1 => pushAt iBI tB o ++ specFrom iBI tB (o + 1) m

theorem specFrom_succ (iBI tB : Int) (o m : Nat) :
    specFrom iBI tB o (m + 1) = pushAt iBI tB o ++ specFrom iBI tB (o + 1) m := rfl

theorem mem_pushAt {iBI tB k : Int} {t : Nat} :
    k ∈ pushAt iBI tB t ↔
      (k = iBI + t ∧ iBI + t < tB) ∨ (k = iBI - t ∧ 0 ≤ iBI - t) := by
  unfold pushAt
  by_cases h1 : iBI + (t : Int) < tB <;> by_cases h2 : 0 ≤ iBI - (t : Int) <;>
    simp [h1, h2]

theorem pushAt_length (iBI tB : Int) (t : Nat) :
    (pushAt iBI tB t).length =
      (if iBI + t < tB then 1 else 0) + (if 0 ≤ iBI - t then 1 else 0) := by
  unfold pushAt
  by_cases h1 : iBI + (t : Int) < tB <;> by_cases h2 : 0 ≤ iBI - (t : Int) <;>
    simp [h1, h2]

theorem specFrom_empty (iBI tB : Int) (o m : Nat)
    (ho : max (tB - 1 - iBI) iBI + 1 ≤ o) :
    specFrom iBI tB o m = [] := by
  induction m generalizing o with
  | zero => rfl
  | succ m ih =>
      unfold specFrom
      have h1 : ¬(iBI + (o : Int) < tB) := by omega
      have h2 : ¬(0 ≤ iBI - (o : Int)) := by omega
      rw [ih (o + 1) (by omega)]
      unfold pushAt
      simp [h1, h2]

theorem mem_specFrom {iBI tB k : Int} {o m t : Nat} (hot : o ≤ t) (htm : t < o + m)
    (hk : (k = iBI + t ∧ iBI + t < tB) ∨ (k = iBI - t ∧ 0 ≤ iBI - t)) :
    k ∈ specFrom iBI tB o m := by
  induction m generalizing o with
  | zero => omega
  | succ m ih =>
      unfold specFrom
      rw [List.mem_append]
      by_cases heq : t = o
      · subst heq
        exact Or.inl (mem_pushAt.mpr hk)
      · exact Or.inr (ih (by omega) (by omega))

/-- The body of one loop iteration at `offset ≥ 1` appends exactly `pushAt`. -/
theorem loop_body_eq (iBI tB : Int) (o : Nat) (acc : List Int) :
    (let acc1 := if iBI + o < tB then acc ++ [iBI + (o : Int)] else acc
     if 0 ≤ iBI - o then acc1 ++ [iBI - (o : Int)] else acc1) =
      acc ++ pushAt iBI tB o := by
  unfold pushAt
  by_cases h1 : iBI + (o : Int) < tB <;> by_cases h2 : 0 ≤ iBI - (o : Int) <;>
    simp [h1, h2]

/-- The loop, once past offset 0 with the correct invariant on the length of
the accumulator, appends exactly the per-offset pushes and stops by itself. -/
theorem batchOrderLoop_spec {iBI tB : Int} (_h0 : 0 ≤ iBI) (_hlt : iBI < tB) :
    ∀ (m o fuel : Nat) (acc : List Int), 1 ≤ o →
      (acc.length : Int) =
        1 + min ((o : Int) - 1) (tB - 1 - iBI) + min ((o : Int) - 1) iBI →
      max (tB - 1 - iBI) iBI + 2 ≤ (o : Int) + m →
      m ≤ fuel →
      batchOrderLoop iBI tB fuel o acc = acc ++ specFrom iBI tB o m := by
  intro m
  induction m with
  | zero =>
      intro o fuel acc ho hlen hm hfuel
      have hsat : (acc.length : Int) = tB := by omega
      cases fuel with
      | zero => simp [batchOrderLoop, specFrom]
      | succ f =>
          unfold batchOrderLoop
          rw [if_neg (by omega)]
          simp [specFrom]
  | succ m ih =>
      intro o fuel acc ho hlen hm hfuel
      by_cases hpast : max (tB - 1 - iBI) iBI + 1 ≤ (o : Int)
      · -- the accumulator is already full; the loop stops and the spec is empty
        have hsat : (acc.length : Int) = tB := by omega
        rw [specFrom_empty iBI tB o (m + 1) (by exact_mod_cast hpast)]
        cases fuel with
        | zero => simp [batchOrderLoop]
        | succ f =>
            unfold batchOrderLoop
            rw [if_neg (by omega)]
            simp
      · push_neg at hpast
        have hcond : (acc.length : Int) < tB := by omega
        cases fuel with
        | zero => omega
        | succ f =>
            unfold batchOrderLoop
            rw [if_pos hcond, if_neg (by omega : ¬(o = 0))]
            rw [loop_body_eq iBI tB o acc]
            have hstep := ih (o + 1) f (acc ++ pushAt iBI tB o) (by omega)
              (by
                rw [List.length_append, pushAt_length]
                push_cast
                split <;> split <;> omega)
              (by push_cast; omega) (by omega)
            rw [hstep, specFrom_succ]
            exact List.append_assoc _ _ _

/-- Closed form of the batch order under valid inputs. -/
theorem batchOrder_eq {iBI tB : Int} (h0 : 0 ≤ iBI) (hlt : iBI < tB) :
    batchOrder iBI tB =
      iBI :: specFrom iBI tB 1 ((max (tB - 1 - iBI) iBI).toNat + 1) := by
  unfold batchOrder
  have htB1 : 1 ≤ tB := by omega
  have hfuel : 1 ≤ tB.toNat + 1 := by omega
  obtain ⟨f, hf⟩ : ∃ f, tB.toNat + 1 = f + 1 := ⟨tB.toNat, rfl⟩
  rw [hf]
  unfold batchOrderLoop
  rw [if_pos (by simpa using htB1), if_pos rfl]
  have hmax0 : (0 : Int) ≤ max (tB - 1 - iBI) iBI := le_max_of_le_right h0
  have := batchOrderLoop_spec h0 hlt ((max (tB - 1 - iBI) iBI).toNat + 1) 1 f
    ([] ++ [iBI]) (by omega)
    (by simp; omega)
    (by push_cast; omega)
    (by omega)
  rw [this]
  simp

/-- Every valid batch index appears in the visiting order. -/
theorem mem_batchOrder {iBI tB k : Int} (h0 : 0 ≤ iBI) (hlt : iBI < tB)
    (hk0 : 0 ≤ k) (hk : k < tB) : k ∈ batchOrder iBI tB := by
  rw [batchOrder_eq h0 hlt]
  by_cases heq : k = iBI
  · exact heq ▸ List.mem_cons_self _ _
  refine List.mem_cons_of_mem _ ?_
  have hmax0 : (0 : Int) ≤ max (tB - 1 - iBI) iBI := le_max_of_le_right h0
  rcases lt_or_gt_of_ne heq with hklt | hkgt
  · -- `k < iBI`: offset `iBI - k`
    refine mem_specFrom (t := (iBI - k).toNat) (by omega) ?_ ?_
    · have : iBI - k ≤ max (tB - 1 - iBI) iBI := le_max_of_le_right (by omega)
      omega
    · right
      constructor <;> omega
  · -- `k > iBI`: offset `k - iBI`
    refine mem_specFrom (t := (k - iBI).toNat) (by omega) ?_ ?_
    · have : k - iBI ≤ max (tB - 1 - iBI) iBI := le_max_of_le_left (by omega)
      omega
    · left
      constructor <;> omega

/-- Every element appended past offset 0 is a valid batch index. -/
theorem specFrom_valid {iBI tB : Int} (_h0 : 0 ≤ iBI) (_hlt : iBI < tB) :
    ∀ (m o : Nat) (k : Int), k ∈ specFrom iBI tB o m → 0 ≤ k ∧ k < tB := by
  intro m
  induction m with
  | zero =>
      intro o k hk
      cases hk
  | succ m ih =>
      intro o k hk
      rw [specFrom_succ] at hk
      rcases List.mem_append.mp hk with hk | hk
      · rcases mem_pushAt.mp hk with ⟨hkeq, hlt'⟩ | ⟨hkeq, hge⟩ <;> subst hkeq
        · exact ⟨by omega, hlt'⟩
        · exact ⟨hge, by omega⟩
      · exact ih (o + 1) k hk

/-- Every element of the visiting order is a valid batch index. -/
theorem batchOrder_valid {iBI tB : Int} (h0 : 0 ≤ iBI) (hlt : iBI < tB) :
    ∀ k ∈ batchOrder iBI tB, 0 ≤ k ∧ k < tB := by
  rw [batchOrder_eq h0 hlt]
  intro k hkmem
  rcases List.mem_cons.mp hkmem with hk | hk
  · subst hk
    exact ⟨h0, hlt⟩
  · exact specFrom_valid h0 hlt _ _ k hk

end OrderSpec

/-! ## Run invariants -/

section RunInvariants

variable (env : Env) (taskId : Nat × Nat) (files : List FileDTO)
  (transList : List (Option ClientFile)) (transIdx : List (Nat × Nat))
  (absStart : Int) (B total : Nat)

theorem foldPos_preserve {P : RunSt → Prop} (ps : List Nat)
    (hstep : ∀ st i, i ∈ ps → P st → P (stepPos env taskId files transList transIdx st i)) :
    ∀ st : RunSt, P st →
      P (ps.foldl (stepPos env taskId files transList transIdx) st) := by
  induction ps with
  | nil => intro st h; exact h
  | cons p ps ih =>
      intro st h
      rw [List.foldl_cons]
      exact ih (fun st i hi hp => hstep st i (List.mem_cons_of_mem p hi) hp) _
        (hstep st p (List.mem_cons_self p ps) h)

theorem foldBatch_preserve {P : RunSt → Prop} (bs : List Int)
    (hstep : ∀ st i, i < total →
      P st → P (stepPos env taskId files transList transIdx st i))
    (hawait : ∀ st, P st → P (applyAwait st)) :
    ∀ st : RunSt, P st →
      P (bs.foldl (stepBatch env taskId files transList transIdx absStart B total) st) := by
  induction bs with
  | nil => intro st h; exact h
  | cons k bs ih =>
      intro st h
      rw [List.foldl_cons]
      refine ih _ ?_
      by_cases hab : st.status = Status.aborted
      · rw [stepBatch_of_aborted env taskId files transList transIdx absStart B total hab]
        exact h
      · simp only [stepBatch, if_neg hab]
        have hfold := foldPos_preserve env taskId files transList transIdx
          (batchPositions absStart B total k)
          (fun st i hi hp => hstep st i (batchPositions_lt_total hi) hp) st h
        split
        · exact hfold
        · exact hawait _ hfold

/-- The value any write to position `i` carries as entity id (the looked-up
entity's id on the reuse branch, the record's id on the create branch). -/
def writeIdAt (i : Nat) : Option Nat :=
  (files[i]?).map (fun rec =>
    match lookupExisting transIdx transList rec.id with
    | some g => g.id
    | none => rec.id)

/-- `reconcileExisting` never touches identity, path, thumbnail or flag. -/
theorem reconcileExisting_fields (env : Env) (f : FileDTO) (file : ClientFile) :
    (reconcileExisting env f file).uid = file.uid ∧
    (reconcileExisting env f file).id = file.id ∧
    (reconcileExisting env f file).absolutePath = file.absolutePath ∧
    (reconcileExisting env f file).thumbnailPath = file.thumbnailPath ∧
    (reconcileExisting env f file).isBroken = file.isBroken := by
  unfold reconcileExisting
  dsimp only
  split <;> split <;> exact ⟨rfl, rfl, rfl, rfl, rfl⟩

/-- When neither comparison fires, the existing entity is returned untouched. -/
theorem reconcileExisting_unchanged (env : Env) (f : FileDTO) (file : ClientFile)
    (ht : tagsDiffer file.tags (f.tags.filter env.tagExists) = false)
    (he : epDiffer file.extraProperties
      (f.extraProperties.filter (fun kv => env.epExists kv.1)) = false) :
    reconcileExisting env f file = file := by
  simp [reconcileExisting, ht, he]

/-- The per-position reconciliation outcome: what a written slot may hold. -/
def PosSpec (nU0 : Nat) (i : Nat) (f : ClientFile) : Prop :=
  ∃ rec, files[i]? = some rec ∧
    ((∃ g, lookupExisting transIdx transList rec.id = some g ∧
        f = reconcileExisting env rec g) ∨
      (lookupExisting transIdx transList rec.id = none ∧
        ∃ u, nU0 ≤ u ∧ f = mkClientFile env u rec))

/-- The inductive invariant of a run: the working array spans the records,
the uid allocator never went below its start, every written slot satisfies
the per-position outcome, the working index only points at written slots
carrying the indexed id, and every written slot carries the id any write to
it produces. -/
def RunInv (nU0 : Nat) (st : RunSt) : Prop :=
  st.target.length = files.length ∧
  nU0 ≤ st.nextUid ∧
  (∀ j f, st.target[j]? = some (some f) →
    PosSpec env files transList transIdx nU0 j f) ∧
  (∀ id j, mapGet st.tIdx id = some j →
    ∃ f, st.target[j]? = some (some f) ∧ f.id = id) ∧
  (∀ j f, st.target[j]? = some (some f) →
    writeIdAt files transList transIdx j = some f.id)

theorem stepPos_runInv {nU0 : Nat} (st : RunSt) (i : Nat)
    (h : RunInv env files transList transIdx nU0 st) :
    RunInv env files transList transIdx nU0
      (stepPos env taskId files transList transIdx st i) := by
  obtain ⟨hL, hU, hP, hI, hW⟩ := h
  rcases stepPos_cases env taskId files transList transIdx st i with hh | hh |
    ⟨hab, hpair, rec, hf, ⟨g, hg, hh⟩ | ⟨hg, hh⟩⟩
  · rw [hh]; exact ⟨hL, hU, hP, hI, hW⟩
  · rw [hh]; exact ⟨hL, hU, hP, hI, hW⟩
  · -- reuse branch
    rw [hh]
    have hi : i < files.length := (List.getElem?_eq_some_iff.mp hf).1
    have hlt : i < st.target.length := by omega
    have hid : (reconcileExisting env rec g).id = g.id :=
      (reconcileExisting_fields env rec g).2.1
    have hwrite : writeIdAt files transList transIdx i = some g.id := by
      unfold writeIdAt
      rw [hf]
      simp [hg]
    refine ⟨by simpa using hL, hU, ?_, ?_, ?_⟩
    · intro j f hjf
      by_cases hij : j = i
      · subst hij
        rw [List.getElem?_set_self hlt] at hjf
        cases hjf
        exact ⟨rec, hf, Or.inl ⟨g, hg, rfl⟩⟩
      · rw [List.getElem?_set_ne (fun hc => hij hc.symm)] at hjf
        exact hP j f hjf
    · intro id j hj
      by_cases hkey : g.id = id
      · subst hkey
        rw [mapGet_mapSet_self] at hj
        cases hj
        exact ⟨reconcileExisting env rec g, List.getElem?_set_self hlt, hid⟩
      · rw [mapGet_mapSet_ne _ _ _ _ hkey] at hj
        obtain ⟨f, hjf, hfid⟩ := hI id j hj
        by_cases hij : j = i
        · subst hij
          have hwj := hW _ f hjf
          rw [hwrite] at hwj
          injection hwj with hgf
          exact absurd (hgf.trans hfid) hkey
        · rw [List.getElem?_set_ne (fun hc => hij hc.symm)]
          exact ⟨f, hjf, hfid⟩
    · intro j f hjf
      by_cases hij : j = i
      · subst hij
        rw [List.getElem?_set_self hlt] at hjf
        cases hjf
        rw [hwrite, hid]
      · rw [List.getElem?_set_ne (fun hc => hij hc.symm)] at hjf
        exact hW j f hjf
  · -- create branch
    rw [hh]
    have hi : i < files.length := (List.getElem?_eq_some_iff.mp hf).1
    have hlt : i < st.target.length := by omega
    have hid : (mkClientFile env st.nextUid rec).id = rec.id := rfl
    have hwrite : writeIdAt files transList transIdx i = some rec.id := by
      unfold writeIdAt
      rw [hf]
      simp [hg]
    refine ⟨by simpa using hL, Nat.le_succ_of_le hU, ?_, ?_, ?_⟩
    · intro j f hjf
      by_cases hij : j = i
      · subst hij
        rw [List.getElem?_set_self hlt] at hjf
        cases hjf
        exact ⟨rec, hf, Or.inr ⟨hg, st.nextUid, hU, rfl⟩⟩
      · rw [List.getElem?_set_ne (fun hc => hij hc.symm)] at hjf
        exact hP j f hjf
    · intro id j hj
      by_cases hkey : (mkClientFile env st.nextUid rec).id = id
      · rw [← hkey] at hj ⊢
        rw [mapGet_mapSet_self] at hj
        cases hj
        exact ⟨mkClientFile env st.nextUid rec, List.getElem?_set_self hlt, rfl⟩
      · rw [mapGet_mapSet_ne _ _ _ _ hkey] at hj
        obtain ⟨f, hjf, hfid⟩ := hI id j hj
        by_cases hij : j = i
        · subst hij
          have hwj := hW _ f hjf
          rw [hwrite] at hwj
          injection hwj with hgf
          rw [hid] at hkey
          exact absurd (hgf.trans hfid) hkey
        · rw [List.getElem?_set_ne (fun hc => hij hc.symm)]
          exact ⟨f, hjf, hfid⟩
    · intro j f hjf
      by_cases hij : j = i
      · subst hij
        rw [List.getElem?_set_self hlt] at hjf
        cases hjf
        rw [hwrite, hid]
      · rw [List.getElem?_set_ne (fun hc => hij hc.symm)] at hjf
        exact hW j f hjf

theorem applyAwait_runInv {nU0 : Nat} (st : RunSt)
    (h : RunInv env files transList transIdx nU0 st) :
    RunInv env files transList transIdx nU0 (applyAwait st) := by
  obtain ⟨hf1, hf2, hf3, hf4, hf5, hf6, hf7⟩ := applyAwait_fields st
  obtain ⟨hL, hU, hP, hI, hW⟩ := h
  refine ⟨by rw [hf1]; exact hL, by rw [hf6]; exact hU, ?_, ?_, ?_⟩
  · intro j f hjf
    rw [hf1] at hjf
    exact hP j f hjf
  · intro id j hj
    rw [hf2] at hj
    rw [hf1]
    exact hI id j hj
  · intro j f hjf
    rw [hf1] at hjf
    exact hW j f hjf

end RunInvariants

/-! ## Coverage: every position of a completed run is written -/

section Coverage

variable (env : Env) (taskId : Nat × Nat) (files : List FileDTO)
  (transList : List (Option ClientFile)) (transIdx : List (Nat × Nat))
  (absStart : Int) (B total : Nat)

theorem stepPos_status_ok {st : RunSt} (h : st.status = Status.success)
    (hp : st.pair = taskId) (i : Nat) :
    (stepPos env taskId files transList transIdx st i).status = Status.success := by
  have hs : st.status ≠ Status.aborted := by rw [h]; intro hc; cases hc
  have hp' : taskId.1 = st.pair.1 ∧ taskId.2 = st.pair.2 := by rw [hp]; exact ⟨rfl, rfl⟩
  cases hf : files[i]? with
  | none => rw [stepPos_of_none env taskId files transList transIdx hs hp' hf]; exact h
  | some f =>
      cases hg : lookupExisting transIdx transList f.id with
      | some g =>
          rw [stepPos_reuse env taskId files transList transIdx hs hp' hf hg]; exact h
      | none =>
          rw [stepPos_create env taskId files transList transIdx hs hp' hf hg]; exact h

theorem foldPos_writes (ps : List Nat) (st : RunSt) (h : st.status = Status.success)
    (hp : st.pair = taskId) {i : Nat} (hips : i ∈ ps) (hi : i < files.length)
    (hlen : st.target.length = files.length) :
    ∃ f, (ps.foldl (stepPos env taskId files transList transIdx) st).target[i]? =
      some (some f) := by
  induction ps generalizing st with
  | nil => cases hips
  | cons p ps ih =>
      rw [List.foldl_cons]
      have hs : st.status ≠ Status.aborted := by rw [h]; intro hc; cases hc
      have hp' : taskId.1 = st.pair.1 ∧ taskId.2 = st.pair.2 := by
        rw [hp]; exact ⟨rfl, rfl⟩
      by_cases hpi : p = i
      · subst hpi
        obtain ⟨rec, hrec⟩ : ∃ rec, files[p]? = some rec := by
          rw [List.getElem?_eq_getElem hi]
          exact ⟨files[p], rfl⟩
        have hlt : p < st.target.length := by omega
        cases hg : lookupExisting transIdx transList rec.id with
        | some g =>
            rw [stepPos_reuse env taskId files transList transIdx hs hp' hrec hg]
            exact foldPos_written_mono env taskId files transList transIdx _ ps
              (by simpa using List.getElem?_set_self hlt)
        | none =>
            rw [stepPos_create env taskId files transList transIdx hs hp' hrec hg]
            exact foldPos_written_mono env taskId files transList transIdx _ ps
              (by simpa using List.getElem?_set_self hlt)
      · have hips' : i ∈ ps := by
          rcases List.mem_cons.mp hips with hc | hc
          · exact absurd hc.symm hpi
          · exact hc
        exact ih _ (stepPos_status_ok env taskId files transList transIdx h hp p)
          (by rw [stepPos_pair]; exact hp) hips'
          (by rw [stepPos_target_length]; exact hlen)

theorem foldBatch_writes (bs : List Int) (st : RunSt) (h : st.status = Status.success)
    (hp : st.pair = taskId) (hcl : CleanSched st.sched) {k : Int} {i : Nat}
    (hk : k ∈ bs) (hik : i ∈ batchPositions absStart B total k)
    (hi : i < files.length) (hlen : st.target.length = files.length) :
    ∃ f, (bs.foldl
      (stepBatch env taskId files transList transIdx absStart B total) st).target[i]? =
        some (some f) := by
  induction bs generalizing st with
  | nil => cases hk
  | cons k' bs ih =>
      rw [List.foldl_cons,
        stepBatch_eq_of_ok env taskId files transList transIdx absStart B total h hp k']
      set st1 := (batchPositions absStart B total k').foldl
        (stepPos env taskId files transList transIdx) st with hst1
      have hS1 : st1.status = Status.success :=
        foldPos_status env taskId files transList transIdx st _ h hp
      have hP1 : st1.pair = taskId := by rw [hst1, foldPos_pair]; exact hp
      have hC1 : CleanSched st1.sched := by rw [hst1, foldPos_sched]; exact hcl
      have hL1 : st1.target.length = files.length := by
        rw [hst1, foldPos_target_length]; exact hlen
      obtain ⟨hap, hacl⟩ := applyAwait_clean hC1
      have hfields := applyAwait_fields st1
      rcases List.mem_cons.mp hk with hkk | hkk
      · subst hkk
        obtain ⟨f, hf⟩ := foldPos_writes env taskId files transList transIdx _ st h hp
          hik hi hlen
        have hf2 : (applyAwait st1).target[i]? = some (some f) := by
          rw [hfields.1]
          exact hf
        exact foldBatch_written_mono env taskId files transList transIdx absStart B total
          _ bs hf2
      · refine ih _ (hfields.2.2.1.trans hS1) (hap.trans hP1) hacl hkk ?_
        rw [hfields.1]
        exact hL1

end Coverage

/-! ## Facts about one full `ffbRun` -/

/-- `lookupExisting` succeeds exactly when the index has a binding pointing
at a defined slot. -/
theorem lookupExisting_eq_some_iff {transIdx : List (Nat × Nat)}
    {transList : List (Option ClientFile)} {id : Nat} {g : ClientFile} :
    lookupExisting transIdx transList id = some g ↔
      ∃ j, mapGet transIdx id = some j ∧ transList[j]? = some (some g) := by
  unfold lookupExisting
  cases hm : mapGet transIdx id with
  | none => simp
  | some j =>
      cases hj : transList[j]? with
      | none => simp [hj]
      | some of =>
          cases of with
          | none => simp [hj]
          | some f => simp [hj, eq_comm]

section FfbRunFacts

variable (env : Env) (s : FileStoreState) (nU : Nat) (files : List FileDTO)
  (B fi subId : Nat) (sched : List (Option (Nat × Nat)))

theorem ffbRun_clean (hclean : CleanSched sched) :
    (ffbRun env s nU files B fi subId sched).status = Status.success ∧
    (ffbRun env s nU files B fi subId sched).pair = (s.fetchTaskIdPair.1, subId) ∧
    CleanSched (ffbRun env s nU files B fi subId sched).sched :=
  foldBatch_clean_inv env (s.fetchTaskIdPair.1, subId) files s.fileList s.index
    (absoluteBatchStart files.length B fi) B files.length _ rfl rfl hclean

theorem ffbRun_target_length :
    (ffbRun env s nU files B fi subId sched).target.length = files.length := by
  unfold ffbRun ffbRunOn
  rw [foldBatch_target_length]
  exact List.length_replicate _ _

theorem ffbRunOn_runInv (order : List Int) :
    RunInv env files s.fileList s.index nU
      (ffbRunOn env s nU files B fi subId sched order) := by
  refine foldBatch_preserve env (s.fetchTaskIdPair.1, subId) files s.fileList s.index
    (absoluteBatchStart files.length B fi) B files.length order
    (fun st i _ h => stepPos_runInv env (s.fetchTaskIdPair.1, subId) files
      s.fileList s.index st i h)
    (fun st h => applyAwait_runInv env files s.fileList s.index st h) _ ?_
  refine ⟨List.length_replicate _ _, le_rfl, ?_, ?_, ?_⟩
  · intro j f hjf
    exfalso
    rcases lt_or_ge j files.length with hj | hj
    · rw [List.getElem?_replicate_of_lt hj] at hjf
      cases hjf
    · rw [List.getElem?_eq_none (by simpa using hj)] at hjf
      cases hjf
  · intro id j hj
    cases hj
  · intro j f hjf
    exfalso
    rcases lt_or_ge j files.length with hj | hj
    · rw [List.getElem?_replicate_of_lt hj] at hjf
      cases hjf
    · rw [List.getElem?_eq_none (by simpa using hj)] at hjf
      cases hjf

theorem ffbRun_runInv :
    RunInv env files s.fileList s.index nU (ffbRun env s nU files B fi subId sched) :=
  ffbRunOn_runInv env s nU files B fi subId sched _

/-- A working index produced by any partial or complete run only resolves
ids to slots actually holding an entity with that id. -/
theorem ffbRunOn_lookup_sound (order : List Int) :
    ∀ (id : Nat) (g : ClientFile),
      lookupExisting (ffbRunOn env s nU files B fi subId sched order).tIdx
        (ffbRunOn env s nU files B fi subId sched order).target id = some g →
      g.id = id := by
  intro id g hlook
  obtain ⟨j, hidx, hslot⟩ := lookupExisting_eq_some_iff.mp hlook
  obtain ⟨-, -, -, hI, -⟩ := ffbRunOn_runInv env s nU files B fi subId sched order
  obtain ⟨f, hjf, hfid⟩ := hI id j hidx
  rw [hslot] at hjf
  injection hjf with hjf
  injection hjf with hjf
  subst hjf
  exact hfid

/-- A completed clean run writes every position, and what it writes satisfies
the per-position reconciliation outcome. -/
theorem ffbRun_content (hB : 1 ≤ B) (hclean : CleanSched sched) {i : Nat} {rec : FileDTO}
    (hf : files[i]? = some rec) :
    ∃ f, (ffbRun env s nU files B fi subId sched).target[i]? = some (some f) ∧
      PosSpec env files s.fileList s.index nU i f := by
  have hi : i < files.length := (List.getElem?_eq_some_iff.mp hf).1
  have htotal : 1 ≤ files.length := by omega
  obtain ⟨k, hk0, hktb, hik⟩ := batchPositions_cover fi hB hi
  obtain ⟨hiBI0, hiBIlt⟩ := initialBatchIndex_mem fi hB htotal
  have hkmem : k ∈ ffbOrder files.length B fi :=
    mem_batchOrder hiBI0 hiBIlt hk0 hktb
  obtain ⟨f, hfw⟩ := foldBatch_writes env (s.fetchTaskIdPair.1, subId) files
    s.fileList s.index (absoluteBatchStart files.length B fi) B files.length
    (ffbOrder files.length B fi)
    { target := List.replicate files.length none
      tIdx := []
      pair := (s.fetchTaskIdPair.1, subId)
      numLoaded := 0
      reused := []
      status := Status.success
      nextUid := nU
      created := []
      sched := sched } rfl rfl hclean hkmem hik hi (List.length_replicate _ _)
  have hinv := ffbRun_runInv env s nU files B fi subId sched
  exact ⟨f, hfw, hinv.2.2.1 i f hfw⟩

/-- Exact form on the reuse branch. -/
theorem ffbRun_content_reuse (hB : 1 ≤ B) (hclean : CleanSched sched) {i : Nat}
    {rec : FileDTO} (hf : files[i]? = some rec) {g : ClientFile}
    (hg : lookupExisting s.index s.fileList rec.id = some g) :
    (ffbRun env s nU files B fi subId sched).target[i]? =
      some (some (reconcileExisting env rec g)) := by
  obtain ⟨f, hfw, rec', hrec', hspec⟩ :=
    ffbRun_content env s nU files B fi subId sched hB hclean hf
  rw [hf] at hrec'
  injection hrec' with hrec'
  subst hrec'
  rcases hspec with ⟨g', hg', hfg⟩ | ⟨hnone, -⟩
  · rw [hg] at hg'
    injection hg' with hg'
    subst hg'
    rw [hfw, hfg]
  · rw [hg] at hnone
    cases hnone

/-- Exact form on the create branch. -/
theorem ffbRun_content_create (hB : 1 ≤ B) (hclean : CleanSched sched) {i : Nat}
    {rec : FileDTO} (hf : files[i]? = some rec)
    (hg : lookupExisting s.index s.fileList rec.id = none) :
    ∃ u, nU ≤ u ∧ (ffbRun env s nU files B fi subId sched).target[i]? =
      some (some (mkClientFile env u rec)) := by
  obtain ⟨f, hfw, rec', hrec', hspec⟩ :=
    ffbRun_content env s nU files B fi subId sched hB hclean hf
  rw [hf] at hrec'
  injection hrec' with hrec'
  subst hrec'
  rcases hspec with ⟨g', hg', -⟩ | ⟨-, u, hu, hfu⟩
  · rw [hg] at hg'
    cases hg'
  · exact ⟨u, hu, by rw [hfw, hfu]⟩

end FfbRunFacts

/-! ## Reused-id bookkeeping, index exactness, creation log -/

section Bookkeeping

variable (env : Env) (s : FileStoreState) (nU : Nat) (files : List FileDTO)
  (B fi subId : Nat) (sched : List (Option (Nat × Nat)))

/-- Every id ever marked reused comes from a record whose id the transition
index resolved to an existing entity. -/
theorem ffbRun_reused_subset :
    ∀ id ∈ (ffbRun env s nU files B fi subId sched).reused,
      ∃ (i : Nat) (rec : FileDTO) (g : ClientFile), files[i]? = some rec ∧
        lookupExisting s.index s.fileList rec.id = some g ∧ g.id = id := by
  have := foldBatch_preserve env (s.fetchTaskIdPair.1, subId) files s.fileList s.index
    (absoluteBatchStart files.length B fi) B files.length
    (ffbOrder files.length B fi)
    (P := fun st => ∀ id ∈ st.reused,
      ∃ (i : Nat) (rec : FileDTO) (g : ClientFile), files[i]? = some rec ∧
        lookupExisting s.index s.fileList rec.id = some g ∧ g.id = id)
    ?_ ?_
    { target := List.replicate files.length none
      tIdx := []
      pair := (s.fetchTaskIdPair.1, subId)
      numLoaded := 0
      reused := []
      status := Status.success
      nextUid := nU
      created := []
      sched := sched } ?_
  · exact this
  · intro st i _ h
    rcases stepPos_cases env (s.fetchTaskIdPair.1, subId) files s.fileList s.index st i
      with hh | hh | ⟨_, _, rec, hf, ⟨g, hg, hh⟩ | ⟨_, hh⟩⟩
    · rw [hh]; exact h
    · rw [hh]; exact h
    · rw [hh]
      intro id hid
      by_cases hmem : g.id ∈ st.reused
      · simp only [if_pos hmem] at hid
        exact h id hid
      · simp only [if_neg hmem] at hid
        rcases List.mem_append.mp hid with hid | hid
        · exact h id hid
        · rcases List.mem_singleton.mp hid with rfl
          exact ⟨i, rec, g, hf, hg, rfl⟩
    · rw [hh]; exact h
  · intro st h
    obtain ⟨-, -, -, hreused, -⟩ := applyAwait_fields st
    rw [hreused]
    exact h
  · intro id hid
    cases hid

theorem foldPos_reused_hit (taskId : Nat × Nat)
    (transList : List (Option ClientFile)) (transIdx : List (Nat × Nat))
    (ps : List Nat) (st : RunSt) (h : st.status = Status.success)
    (hp : st.pair = taskId) {i : Nat} {rec : FileDTO} {g : ClientFile}
    (hips : i ∈ ps) (hf : files[i]? = some rec)
    (hg : lookupExisting transIdx transList rec.id = some g) :
    g.id ∈ (ps.foldl (stepPos env taskId files transList transIdx) st).reused := by
  induction ps generalizing st with
  | nil => cases hips
  | cons p ps ih =>
      rw [List.foldl_cons]
      have hs : st.status ≠ Status.aborted := by rw [h]; intro hc; cases hc
      have hp' : taskId.1 = st.pair.1 ∧ taskId.2 = st.pair.2 := by
        rw [hp]; exact ⟨rfl, rfl⟩
      by_cases hpi : p = i
      · subst hpi
        rw [stepPos_reuse env taskId files transList transIdx hs hp' hf hg]
        refine foldPos_reused_mono env taskId files transList transIdx _ ps ?_
        by_cases hmem : g.id ∈ st.reused
        · simpa [if_pos hmem] using hmem
        · simp [if_neg hmem]
      · have hips' : i ∈ ps := by
          rcases List.mem_cons.mp hips with hc | hc
          · exact absurd hc.symm hpi
          · exact hc
        exact ih _ (stepPos_status_ok env taskId files transList transIdx h hp p)
          (by rw [stepPos_pair]; exact hp) hips'

theorem foldBatch_reused_hit (taskId : Nat × Nat)
    (transList : List (Option ClientFile)) (transIdx : List (Nat × Nat))
    (absStart : Int) (Bb total : Nat)
    (bs : List Int) (st : RunSt) (h : st.status = Status.success)
    (hp : st.pair = taskId) (hcl : CleanSched st.sched) {k : Int} {i : Nat}
    {rec : FileDTO} {g : ClientFile}
    (hk : k ∈ bs) (hik : i ∈ batchPositions absStart Bb total k)
    (hf : files[i]? = some rec)
    (hg : lookupExisting transIdx transList rec.id = some g) :
    g.id ∈ (bs.foldl
      (stepBatch env taskId files transList transIdx absStart Bb total) st).reused := by
  induction bs generalizing st with
  | nil => cases hk
  | cons k' bs ih =>
      rw [List.foldl_cons,
        stepBatch_eq_of_ok env taskId files transList transIdx absStart Bb total h hp k']
      set st1 := (batchPositions absStart Bb total k').foldl
        (stepPos env taskId files transList transIdx) st with hst1
      have hS1 : st1.status = Status.success :=
        foldPos_status env taskId files transList transIdx st _ h hp
      have hP1 : st1.pair = taskId := by rw [hst1, foldPos_pair]; exact hp
      have hC1 : CleanSched st1.sched := by rw [hst1, foldPos_sched]; exact hcl
      obtain ⟨hap, hacl⟩ := applyAwait_clean hC1
      have hfields := applyAwait_fields st1
      rcases List.mem_cons.mp hk with hkk | hkk
      · subst hkk
        have hhit : g.id ∈ st1.reused :=
          foldPos_reused_hit env files taskId transList transIdx _ st h hp hik hf hg
        have hhit2 : g.id ∈ (applyAwait st1).reused := by
          rw [hfields.2.2.2.1]
          exact hhit
        exact foldBatch_reused_mono env taskId files transList transIdx absStart Bb total
          _ bs hhit2
      · exact ih _ (hfields.2.2.1.trans hS1) (hap.trans hP1) hacl hkk

/-- On a clean completed run, every record id resolved by the transition
snapshot is marked reused. -/
theorem ffbRun_reused_hit (hB : 1 ≤ B) (hclean : CleanSched sched) {i : Nat}
    {rec : FileDTO} {g : ClientFile} (hf : files[i]? = some rec)
    (hg : lookupExisting s.index s.fileList rec.id = some g) :
    g.id ∈ (ffbRun env s nU files B fi subId sched).reused := by
  have hi : i < files.length := (List.getElem?_eq_some_iff.mp hf).1
  have htotal : 1 ≤ files.length := by omega
  obtain ⟨k, hk0, hktb, hik⟩ := batchPositions_cover fi hB hi
  obtain ⟨hiBI0, hiBIlt⟩ := initialBatchIndex_mem fi hB htotal
  have hkmem : k ∈ ffbOrder files.length B fi :=
    mem_batchOrder hiBI0 hiBIlt hk0 hktb
  exact foldBatch_reused_hit env files (s.fetchTaskIdPair.1, subId) s.fileList s.index
    (absoluteBatchStart files.length B fi) B files.length
    (ffbOrder files.length B fi) _ rfl rfl hclean hkmem hik hf hg

/-- If every record resolves to an existing entity, the run constructs
nothing. -/
theorem ffbRun_created_nil
    (hall : ∀ (i : Nat) (rec : FileDTO), files[i]? = some rec →
      (lookupExisting s.index s.fileList rec.id).isSome) :
    (ffbRun env s nU files B fi subId sched).created = [] := by
  have := foldBatch_preserve env (s.fetchTaskIdPair.1, subId) files s.fileList s.index
    (absoluteBatchStart files.length B fi) B files.length
    (ffbOrder files.length B fi)
    (P := fun st => st.created = [])
    ?_ ?_
    { target := List.replicate files.length none
      tIdx := []
      pair := (s.fetchTaskIdPair.1, subId)
      numLoaded := 0
      reused := []
      status := Status.success
      nextUid := nU
      created := []
      sched := sched } rfl
  · exact this
  · intro st i _ h
    rcases stepPos_cases env (s.fetchTaskIdPair.1, subId) files s.fileList s.index st i
      with hh | hh | ⟨_, _, rec, hf, ⟨g, hg, hh⟩ | ⟨hg, hh⟩⟩
    · rw [hh]; exact h
    · rw [hh]; exact h
    · rw [hh]; exact h
    · exfalso
      have := hall i rec hf
      rw [hg] at this
      cases this
  · intro st h
    obtain ⟨-, -, -, -, hcreated, -⟩ := applyAwait_fields st
    rw [hcreated]
    exact h

/-- With pairwise-distinct record ids and an id-sound transition snapshot,
any partial or complete run indexes every written record id at its own
position. -/
theorem ffbRunOn_index_inv
    (hids : ∀ (i j : Nat) (ri rj : FileDTO), files[i]? = some ri → files[j]? = some rj →
      ri.id = rj.id → i = j)
    (hsnap : ∀ (id : Nat) (g : ClientFile),
      lookupExisting s.index s.fileList id = some g → g.id = id)
    (order : List Int) :
    ∀ (j : Nat) (rj : FileDTO), files[j]? = some rj →
      (∃ f, (ffbRunOn env s nU files B fi subId sched order).target[j]? = some (some f)) →
      mapGet (ffbRunOn env s nU files B fi subId sched order).tIdx rj.id = some j := by
  refine foldBatch_preserve env (s.fetchTaskIdPair.1, subId) files s.fileList s.index
    (absoluteBatchStart files.length B fi) B files.length order
    (P := fun st => ∀ (j : Nat) (rj : FileDTO), files[j]? = some rj →
      (∃ f, st.target[j]? = some (some f)) → mapGet st.tIdx rj.id = some j)
    ?_ ?_
    { target := List.replicate files.length none
      tIdx := []
      pair := (s.fetchTaskIdPair.1, subId)
      numLoaded := 0
      reused := []
      status := Status.success
      nextUid := nU
      created := []
      sched := sched } ?_
  · intro st i' _ h
    rcases stepPos_cases env (s.fetchTaskIdPair.1, subId) files s.fileList s.index st i'
      with hh | hh | ⟨hab, hpair, rec', hf', ⟨g', hg', hh⟩ | ⟨hg', hh⟩⟩
    · rw [hh]; exact h
    · rw [hh]; exact h
    · -- reuse write at `i'` with key `g'.id = rec'.id`
      rw [hh]
      intro j rj hrj hw
      have hkeyid : g'.id = rec'.id := hsnap rec'.id g' hg'
      by_cases hji : j = i'
      · subst hji
        have hsame : rj = rec' := by
          rw [hf'] at hrj
          injection hrj with hx
          exact hx.symm
        subst hsame
        rw [hkeyid, mapGet_mapSet_self]
      · have hne : rj.id ≠ rec'.id := by
          intro hc
          exact hji (hids j i' rj rec' hrj hf' hc)
        obtain ⟨f, hfw⟩ := hw
        rw [List.getElem?_set_ne (fun hc => hji hc.symm)] at hfw
        have := h j rj hrj ⟨f, hfw⟩
        rw [hkeyid, mapGet_mapSet_ne _ _ _ _ (fun hc => hne hc.symm)]
        exact this
    · -- create write at `i'` with key `rec'.id`
      rw [hh]
      intro j rj hrj hw
      by_cases hji : j = i'
      · subst hji
        have hsame : rj = rec' := by
          rw [hf'] at hrj
          injection hrj with hx
          exact hx.symm
        subst hsame
        have hkey : (mkClientFile env st.nextUid rj).id = rj.id := rfl
        rw [hkey, mapGet_mapSet_self]
      · have hne : rj.id ≠ rec'.id := by
          intro hc
          exact hji (hids j i' rj rec' hrj hf' hc)
        obtain ⟨f, hfw⟩ := hw
        rw [List.getElem?_set_ne (fun hc => hji hc.symm)] at hfw
        have := h j rj hrj ⟨f, hfw⟩
        have hkey : (mkClientFile env st.nextUid rec').id = rec'.id := rfl
        rw [hkey, mapGet_mapSet_ne _ _ _ _ (fun hc => hne hc.symm)]
        exact this
  · intro st h
    obtain ⟨htg, htI, -⟩ := applyAwait_fields st
    intro j rj hrj hw
    rw [htI]
    rw [htg] at hw
    exact h j rj hrj hw
  · intro j rj _ hw
    exfalso
    obtain ⟨f, hfw⟩ := hw
    rcases lt_or_ge j files.length with hj | hj
    · rw [List.getElem?_replicate_of_lt hj] at hfw
      cases hfw
    · rw [List.getElem?_eq_none (by simpa using hj)] at hfw
      cases hfw


/-- With pairwise-distinct record ids and an id-sound transition snapshot, a
clean completed run indexes every record id at its own position. -/
theorem ffbRun_index_exact (hB : 1 ≤ B) (hclean : CleanSched sched)
    (hids : ∀ (i j : Nat) (ri rj : FileDTO), files[i]? = some ri → files[j]? = some rj →
      ri.id = rj.id → i = j)
    (hsnap : ∀ (id : Nat) (g : ClientFile),
      lookupExisting s.index s.fileList id = some g → g.id = id)
    {i : Nat} {rec : FileDTO} (hf : files[i]? = some rec) :
    mapGet (ffbRun env s nU files B fi subId sched).tIdx rec.id = some i := by
  obtain ⟨f, hfw, -⟩ := ffbRun_content env s nU files B fi subId sched hB hclean hf
  exact ffbRunOn_index_inv env s nU files B fi subId sched hids hsnap _ i rec hf ⟨f, hfw⟩

end Bookkeeping

/-! ## Projections of `filesFromBackend` and id-level consequences -/

section FfbProjections

variable (env : Env) (s : FileStoreState) (nU : Nat) (files : List FileDTO)
  (B fi subId : Nat) (sched : List (Option (Nat × Nat)))

theorem ffb_newFiles :
    (filesFromBackend env s nU files true B fi subId sched).newFiles =
      (ffbRun env s nU files B fi subId sched).target := rfl

theorem ffb_status (uo : Bool) :
    (filesFromBackend env s nU files uo B fi subId sched).status =
      (ffbRun env s nU files B fi subId sched).status := rfl

theorem ffb_reused (uo : Bool) :
    (filesFromBackend env s nU files uo B fi subId sched).reused =
      (ffbRun env s nU files B fi subId sched).reused := rfl

theorem ffb_created (uo : Bool) :
    (filesFromBackend env s nU files uo B fi subId sched).created =
      (ffbRun env s nU files B fi subId sched).created := rfl

theorem ffb_nextUid (uo : Bool) :
    (filesFromBackend env s nU files uo B fi subId sched).nextUid =
      (ffbRun env s nU files B fi subId sched).nextUid := rfl

theorem ffb_state_fileList_live :
    (filesFromBackend env s nU files true B fi subId sched).state.fileList =
      (ffbRun env s nU files B fi subId sched).target := rfl

theorem ffb_state_index_live :
    (filesFromBackend env s nU files true B fi subId sched).state.index =
      (ffbRun env s nU files B fi subId sched).tIdx := rfl

theorem ffb_state_fileList_frame :
    (filesFromBackend env s nU files false B fi subId sched).state.fileList =
      s.fileList := rfl

theorem ffb_state_index_frame :
    (filesFromBackend env s nU files false B fi subId sched).state.index =
      s.index := rfl

theorem ffb_disposed (uo : Bool) :
    (filesFromBackend env s nU files uo B fi subId sched).disposed =
      s.fileList.filterMap
        (fun of => of.bind (fun g =>
          if g.id ∈ (ffbRun env s nU files B fi subId sched).reused then none
          else some g.uid)) := rfl

/-- The disposal pass of any run disposes every snapshot entity whose id was
never marked reused. -/
theorem ffb_disposed_of_not_reused (uo : Bool) {f : ClientFile}
    (hmem : some f ∈ s.fileList)
    (hnr : f.id ∉ (filesFromBackend env s nU files uo B fi subId sched).reused) :
    f.uid ∈ (filesFromBackend env s nU files uo B fi subId sched).disposed := by
  rw [ffb_disposed]
  rw [ffb_reused] at hnr
  refine List.mem_filterMap.mpr ⟨some f, hmem, ?_⟩
  simp [hnr]

/-- On a clean completed run over an id-sound snapshot, the live collection
holds, at every record position, an entity carrying that record's id. -/
theorem ffb_ids_match (hB : 1 ≤ B) (hclean : CleanSched sched)
    (hsnap : ∀ (id : Nat) (g : ClientFile),
      lookupExisting s.index s.fileList id = some g → g.id = id)
    {i : Nat} {rec : FileDTO} (hf : files[i]? = some rec) :
    ∃ f, (filesFromBackend env s nU files true B fi subId sched).state.fileList[i]? =
        some (some f) ∧ f.id = rec.id := by
  rw [ffb_state_fileList_live]
  cases hg : lookupExisting s.index s.fileList rec.id with
  | some g =>
      refine ⟨reconcileExisting env rec g,
        ffbRun_content_reuse env s nU files B fi subId sched hB hclean hf hg, ?_⟩
      rw [(reconcileExisting_fields env rec g).2.1]
      exact hsnap rec.id g hg
  | none =>
      obtain ⟨u, -, hfu⟩ :=
        ffbRun_content_create env s nU files B fi subId sched hB hclean hf hg
      exact ⟨mkClientFile env u rec, hfu, rfl⟩

end FfbProjections

/-! ## The index rebuild loops -/

section BuildIndex

theorem buildIndexAux_frame :
    ∀ (l : List (Option ClientFile)) (n : Nat) (m : List (Nat × Nat)) (id : Nat),
      (∀ f : ClientFile, some f ∈ l → f.id ≠ id) →
      mapGet (buildIndexAux n l m) id = mapGet m id := by
  intro l
  induction l with
  | nil => intro n m id _; rfl
  | cons of rest ih =>
      intro n m id hno
      cases of with
      | none =>
          show mapGet (buildIndexAux (n + 1) rest m) id = mapGet m id
          exact ih (n + 1) m id (fun f hf => hno f (List.mem_cons_of_mem _ hf))
      | some f =>
          show mapGet (buildIndexAux (n + 1) rest (mapSet m f.id n)) id = mapGet m id
          rw [ih (n + 1) _ id (fun f' hf' => hno f' (List.mem_cons_of_mem _ hf'))]
          exact mapGet_mapSet_ne m f.id id n (hno f (List.mem_cons_self _ _))

theorem buildIndexAux_found :
    ∀ (l : List (Option ClientFile)) (n : Nat) (m : List (Nat × Nat)) (j : Nat)
      (f : ClientFile), l[j]? = some (some f) →
      (∀ (j' : Nat) (f' : ClientFile), l[j']? = some (some f') → f'.id = f.id → j' = j) →
      mapGet (buildIndexAux n l m) f.id = some (n + j) := by
  intro l
  induction l with
  | nil =>
      intro n m j f hjf _
      rw [List.getElem?_eq_none (by simp)] at hjf
      cases hjf
  | cons of rest ih =>
      intro n m j f hjf huniq
      cases j with
      | zero =>
          rw [List.getElem?_cons_zero] at hjf
          injection hjf with hjf
          subst hjf
          show mapGet (buildIndexAux (n + 1) rest (mapSet m f.id n)) f.id = some n
          rw [buildIndexAux_frame rest (n + 1) _ f.id ?_]
          · exact mapGet_mapSet_self m f.id n
          · intro f' hf' hc
            obtain ⟨j', hj'⟩ := List.getElem?_of_mem hf'
            have := huniq (j' + 1) f' (by rw [List.getElem?_cons_succ]; exact hj') hc
            cases this
      | succ j' =>
          rw [List.getElem?_cons_succ] at hjf
          have huniq' : ∀ (j'' : Nat) (f' : ClientFile),
              rest[j'']? = some (some f') → f'.id = f.id → j'' = j' := by
            intro j'' f' hj'' hc
            have := huniq (j'' + 1) f' (by rw [List.getElem?_cons_succ]; exact hj'') hc
            omega
          have hstep : ∀ m', mapGet (buildIndexAux (n + 1) rest m') f.id =
              some (n + 1 + j') := fun m' => ih (n + 1) m' j' f hjf huniq'
          have harith : n + 1 + j' = n + (j' + 1) := by omega
          cases of with
          | none =>
              show mapGet (buildIndexAux (n + 1) rest m) f.id = some (n + (j' + 1))
              rw [hstep m, harith]
          | some g =>
              show mapGet (buildIndexAux (n + 1) rest (mapSet m g.id n)) f.id =
                some (n + (j' + 1))
              rw [hstep _, harith]

theorem buildIndexAux_sound :
    ∀ (l : List (Option ClientFile)) (n : Nat) (m : List (Nat × Nat)) (id j : Nat),
      mapGet (buildIndexAux n l m) id = some j →
      (∃ (j' : Nat) (f : ClientFile), l[j']? = some (some f) ∧ f.id = id ∧ j = n + j') ∨
        mapGet m id = some j := by
  intro l
  induction l with
  | nil => intro n m id j h; exact Or.inr h
  | cons of rest ih =>
      intro n m id j h
      cases of with
      | none =>
          rcases ih (n + 1) m id j h with ⟨j', f, hj', hfid, hjeq⟩ | hm
          · exact Or.inl ⟨j' + 1, f, by rw [List.getElem?_cons_succ]; exact hj', hfid,
              by omega⟩
          · exact Or.inr hm
      | some f =>
          rcases ih (n + 1) (mapSet m f.id n) id j h with ⟨j', g, hj', hgid, hjeq⟩ | hm
          · exact Or.inl ⟨j' + 1, g, by rw [List.getElem?_cons_succ]; exact hj', hgid,
              by omega⟩
          · by_cases hid : f.id = id
            · subst hid
              rw [mapGet_mapSet_self] at hm
              injection hm with hm
              exact Or.inl ⟨0, f, List.getElem?_cons_zero, rfl, by omega⟩
            · rw [mapGet_mapSet_ne _ _ _ _ hid] at hm
              exact Or.inr hm

theorem buildIndex_found {l : List (Option ClientFile)} {j : Nat} {f : ClientFile}
    (hjf : l[j]? = some (some f))
    (huniq : ∀ (j' : Nat) (f' : ClientFile), l[j']? = some (some f') →
      f'.id = f.id → j' = j) :
    mapGet (buildIndex l) f.id = some j := by
  have := buildIndexAux_found l 0 [] j f hjf huniq
  simpa using this

theorem buildIndex_sound {l : List (Option ClientFile)} {id j : Nat}
    (h : mapGet (buildIndex l) id = some j) :
    ∃ f : ClientFile, l[j]? = some (some f) ∧ f.id = id := by
  rcases buildIndexAux_sound l 0 [] id j h with ⟨j', f, hj', hfid, hjeq⟩ | hm
  · have : j = j' := by omega
    subst this
    exact ⟨f, hj', hfid⟩
  · cases hm

end BuildIndex

/-! ## Staleness and abort -/

section Abort

variable (env : Env) (taskId : Nat × Nat) (files : List FileDTO)
  (transList : List (Option ClientFile)) (transIdx : List (Nat × Nat))
  (absStart : Int) (B total : Nat)

theorem foldBatch_of_aborted {st : RunSt} (h : st.status = Status.aborted)
    (bs : List Int) :
    bs.foldl (stepBatch env taskId files transList transIdx absStart B total) st = st := by
  induction bs with
  | nil => rfl
  | cons k bs ih =>
      rw [List.foldl_cons,
        stepBatch_of_aborted env taskId files transList transIdx absStart B total h, ih]

/-- A batch loop that starts under a mismatched pair aborts at its very first
position and commits nothing at all. -/
theorem foldBatch_stale (st : RunSt) (h : st.status = Status.success)
    (hstale : taskId.1 ≠ st.pair.1 ∨ taskId.2 ≠ st.pair.2) {bs : List Int}
    (hbs : bs ≠ [])
    (hne : ∀ k ∈ bs, batchPositions absStart B total k ≠ []) :
    bs.foldl (stepBatch env taskId files transList transIdx absStart B total) st =
      { st with status := Status.aborted } := by
  cases bs with
  | nil => exact absurd rfl hbs
  | cons k bs =>
      rw [List.foldl_cons]
      have hs : st.status ≠ Status.aborted := by rw [h]; intro hc; cases hc
      have hbatch : stepBatch env taskId files transList transIdx absStart B total st k =
          { st with status := Status.aborted } := by
        simp only [stepBatch, if_neg hs]
        cases hps : batchPositions absStart B total k with
        | nil => exact absurd hps (hne k (List.mem_cons_self k bs))
        | cons q qs =>
            rw [List.foldl_cons,
              stepPos_of_stale env taskId files transList transIdx hs hstale q,
              foldPos_of_aborted env taskId files transList transIdx rfl qs]
            rw [if_pos rfl]
      rw [hbatch]
      exact foldBatch_of_aborted env taskId files transList transIdx absStart B total rfl bs

/-- A run whose schedule flips the authoritative pair at the suspension point
after batch `m` (counted in visiting order) aborts, and its working array is
exactly what the first `m + 1` batches committed. -/
theorem foldBatch_flip :
    ∀ (m : Nat) (bs : List Int) (st : RunSt) (p : Nat × Nat)
      (rest : List (Option (Nat × Nat))),
      st.status = Status.success → st.pair = taskId →
      st.sched = List.replicate m none ++ some p :: rest →
      (taskId.1 ≠ p.1 ∨ taskId.2 ≠ p.2) →
      m + 1 < bs.length →
      (∀ k ∈ bs, batchPositions absStart B total k ≠ []) →
      (bs.foldl (stepBatch env taskId files transList transIdx absStart B total) st).status =
          Status.aborted ∧
        (bs.foldl (stepBatch env taskId files transList transIdx absStart B total) st).target =
          ((bs.take (m + 1)).foldl
            (stepBatch env taskId files transList transIdx absStart B total) st).target := by
  intro m
  induction m with
  | zero =>
      intro bs st p rest h hp hsched hstale hmlen hne
      cases bs with
      | nil => simp at hmlen
      | cons k bs =>
          have hbs' : bs ≠ [] := by
            intro hc
            rw [hc] at hmlen
            simp at hmlen
          rw [List.foldl_cons,
            stepBatch_eq_of_ok env taskId files transList transIdx absStart B total h hp k]
          set st1 := (batchPositions absStart B total k).foldl
            (stepPos env taskId files transList transIdx) st with hst1
          have hS1 : st1.status = Status.success :=
            foldPos_status env taskId files transList transIdx st _ h hp
          have hsched1 : st1.sched = some p :: rest := by
            rw [hst1, foldPos_sched, hsched]
            rfl
          have hst2 : applyAwait st1 = { st1 with sched := rest, pair := p } := by
            unfold applyAwait
            rw [hsched1]
            rfl
          rw [hst2]
          have hfold := foldBatch_stale env taskId files transList transIdx absStart B total
            { st1 with sched := rest, pair := p } hS1 (by simpa using hstale) hbs'
            (fun k' hk' => hne k' (List.mem_cons_of_mem k hk'))
          rw [hfold]
          refine ⟨rfl, ?_⟩
          rw [List.take_succ_cons, List.take_zero, List.foldl_cons, List.foldl_nil,
            stepBatch_eq_of_ok env taskId files transList transIdx absStart B total h hp k,
            ← hst1, hst2]
  | succ m ih =>
      intro bs st p rest h hp hsched hstale hmlen hne
      cases bs with
      | nil => simp at hmlen
      | cons k bs =>
          rw [List.foldl_cons,
            stepBatch_eq_of_ok env taskId files transList transIdx absStart B total h hp k]
          set st1 := (batchPositions absStart B total k).foldl
            (stepPos env taskId files transList transIdx) st with hst1
          have hS1 : st1.status = Status.success :=
            foldPos_status env taskId files transList transIdx st _ h hp
          have hP1 : st1.pair = taskId := by rw [hst1, foldPos_pair]; exact hp
          have hsched1 : st1.sched = none :: (List.replicate m none ++ some p :: rest) := by
            rw [hst1, foldPos_sched, hsched, List.replicate_succ]
            rfl
          have hst2 : applyAwait st1 =
              { st1 with sched := List.replicate m none ++ some p :: rest } := by
            unfold applyAwait
            rw [hsched1]
            rfl
          rw [hst2]
          have hrec := ih bs { st1 with sched := List.replicate m none ++ some p :: rest }
            p rest hS1 hP1 rfl hstale (by simpa using hmlen)
            (fun k' hk' => hne k' (List.mem_cons_of_mem k hk'))
          refine ⟨hrec.1, ?_⟩
          rw [hrec.2, List.take_succ_cons, List.foldl_cons,
            stepBatch_eq_of_ok env taskId files transList transIdx absStart B total h hp k,
            ← hst1, hst2]

end Abort

section FfbAbort

variable (env : Env) (s : FileStoreState) (nU : Nat) (files : List FileDTO)
  (B fi subId : Nat)

/-- Every batch of the visiting order has work to do. -/
theorem ffbOrder_positions_nonempty (hB : 1 ≤ B) (htotal : 1 ≤ files.length) :
    ∀ k ∈ ffbOrder files.length B fi,
      batchPositions (absoluteBatchStart files.length B fi) B files.length k ≠ [] := by
  intro k hk
  obtain ⟨hiBI0, hiBIlt⟩ := initialBatchIndex_mem fi hB htotal
  obtain ⟨hk0, hktb⟩ := batchOrder_valid hiBI0 hiBIlt k hk
  obtain ⟨i, hi⟩ := batchPositions_nonempty hB htotal hk0 hktb
  intro hc
  rw [hc] at hi
  cases hi

/-- `filesFromBackend` under a schedule that flips the epoch pair after batch
`m`: the run aborts and its output array holds exactly the first `m + 1`
batches' commits. -/
theorem ffbRun_flip (m : Nat) (p : Nat × Nat) (rest : List (Option (Nat × Nat)))
    (hB : 1 ≤ B) (htotal : 1 ≤ files.length)
    (hp : s.fetchTaskIdPair.1 ≠ p.1 ∨ subId ≠ p.2)
    (hm : m + 1 < (ffbOrder files.length B fi).length) :
    (ffbRun env s nU files B fi subId
        (List.replicate m none ++ some p :: rest)).status = Status.aborted ∧
      (ffbRun env s nU files B fi subId
        (List.replicate m none ++ some p :: rest)).target =
        (ffbRunOn env s nU files B fi subId
          (List.replicate m none ++ some p :: rest)
          ((ffbOrder files.length B fi).take (m + 1))).target :=
  foldBatch_flip env (s.fetchTaskIdPair.1, subId) files s.fileList s.index
    (absoluteBatchStart files.length B fi) B files.length m
    (ffbOrder files.length B fi) _ p rest rfl rfl rfl hp hm
    (ffbOrder_positions_nonempty files B fi hB htotal)

end FfbAbort

/-! ## The estimator recurrence -/

section Estimator

theorem estimator_get (n : Nat) :
    mapGet (estimatorState (n + 1)).averageFetchTimes 0 = some (storedAvg n) := by
  show mapGet (setAverageFetchTime (estimatorState n) 0 (altDuration n)).averageFetchTimes 0 =
    some (storedAvg n)
  unfold storedAvg
  show mapGet (setAverageFetchTime (estimatorState n) 0 (altDuration n)).averageFetchTimes 0 =
    some ((mapGet (setAverageFetchTime (estimatorState n) 0
      (altDuration n)).averageFetchTimes 0).getD 0)
  simp [setAverageFetchTime, mapGet_mapSet_self]

theorem storedAvg_zero : storedAvg 0 = 100 := by
  show (mapGet (setAverageFetchTime emptyStore 0 (altDuration 0)).averageFetchTimes 0).getD 0 =
    100
  simp [setAverageFetchTime, emptyStore, altDuration, mapGet_mapSet_self, mapGet]

theorem storedAvg_succ (n : Nat) :
    storedAvg (n + 1) = (storedAvg n + altDuration (n + 1)) / 2 := by
  have h := estimator_get n
  show (mapGet (setAverageFetchTime (estimatorState (n + 1)) 0
    (altDuration (n + 1))).averageFetchTimes 0).getD 0 = _
  simp [setAverageFetchTime, mapGet_mapSet_self, h]

theorem altDuration_even (k : Nat) : altDuration (2 * k) = 100 := by
  have : (2 * k) % 2 = 0 := by omega
  simp [altDuration, this]

theorem altDuration_odd (k : Nat) : altDuration (2 * k + 1) = 200 := by
  have : (2 * k + 1) % 2 = 1 := by omega
  simp [altDuration, this]

theorem storedAvg_one : storedAvg 1 = 150 := by
  have h := storedAvg_succ 0
  have h1 : altDuration 1 = 200 := by simpa using altDuration_odd 0
  rw [h, h1, storedAvg_zero]
  norm_num

theorem storedAvg_even_closed (k : Nat) :
    storedAvg (2 * k + 2) = 400 / 3 - (25 / 3) * (1 / 4) ^ k := by
  induction k with
  | zero =>
      have h2 := storedAvg_succ 1
      have hd : altDuration 2 = 100 := by simpa using altDuration_even 1
      rw [h2, hd, storedAvg_one]
      norm_num
  | succ k ih =>
      have h3 : storedAvg (2 * k + 3) = (storedAvg (2 * k + 2) + 200) / 2 := by
        have := storedAvg_succ (2 * k + 2)
        have hd : altDuration (2 * k + 3) = 200 := by
          simpa [Nat.mul_add, Nat.add_assoc] using altDuration_odd (k + 1)
        rw [← hd]
        exact this
      have h4 : storedAvg (2 * (k + 1) + 2) = (storedAvg (2 * k + 3) + 100) / 2 := by
        have h := storedAvg_succ (2 * k + 3)
        have hd : altDuration (2 * k + 4) = 100 := by
          simpa [Nat.mul_add] using altDuration_even (k + 2)
        have harith : 2 * (k + 1) + 2 = 2 * k + 3 + 1 := by omega
        rw [harith, h, hd]
      rw [h4, h3, ih]
      ring

theorem storedAvg_odd_closed (k : Nat) :
    storedAvg (2 * k + 3) = 500 / 3 - (25 / 6) * (1 / 4) ^ k := by
  have h3 : storedAvg (2 * k + 3) = (storedAvg (2 * k + 2) + 200) / 2 := by
    have := storedAvg_succ (2 * k + 2)
    have hd : altDuration (2 * k + 3) = 200 := by
      simpa [Nat.mul_add, Nat.add_assoc] using altDuration_odd (k + 1)
    rw [← hd]
    exact this
  rw [h3, storedAvg_even_closed k]
  ring

end Estimator

/-! ## Small concrete fixtures used by witnesses and counterexamples -/

/-- An environment in which every tag and extra property exists, nothing is
hidden, and the derived thumbnail path is the record's absolute path. -/
def exEnv : Env :=
  { tagExists := fun _ => true
    epExists := fun _ => true
    hiddenTag := fun _ => false
    derivePath := fun f => f.absolutePath }

def exRec1 : FileDTO := { id := 1, tags := [2], extraProperties := [(3, 4)], absolutePath := 5 }

def exRec2 : FileDTO := { id := 6, tags := [], extraProperties := [], absolutePath := 7 }

def exRec3 : FileDTO := { id := 8, tags := [9], extraProperties := [], absolutePath := 10 }

/-- The entity `exRec1` reconciles to with a cached thumbnail path `77`. -/
def exFile1 : ClientFile :=
  { uid := 50, id := 1, tags := [2], extraProperties := [(3, 4)], absolutePath := 5
    thumbnailPath := 77, isBroken := none }

def exFile2 : ClientFile :=
  { uid := 51, id := 6, tags := [], extraProperties := [], absolutePath := 7
    thumbnailPath := 78, isBroken := none }

def exFile3 : ClientFile :=
  { uid := 52, id := 8, tags := [9], extraProperties := [], absolutePath := 10
    thumbnailPath := 79, isBroken := none }

/-- A store holding `exFile1` at position 0, consistently indexed. -/
def exStore1 : FileStoreState :=
  { emptyStore with fileList := [some exFile1], index := [(1, 0)] }

/-- A stale store for the existence-phase counterexample: the authoritative
fetch id is 2 while the captured one will be 1. -/
def exStaleStore : FileStoreState :=
  { emptyStore with
    fileList := [some exFile1]
    index := [(1, 0)]
    fetchTaskIdPair := (2, 0) }

/-- A fourth record with an id matching nothing in the fixtures. -/
def exRecD : FileDTO := { id := 11, tags := [], extraProperties := [], absolutePath := 12 }

/-- A store holding the three fixture entities, indexed by the rebuild loop
itself (so its index is sound by construction). -/
def exStore3 : FileStoreState :=
  { emptyStore with
    fileList := [some exFile1, some exFile2, some exFile3]
    index := buildIndex [some exFile1, some exFile2, some exFile3] }

/-- At most one collection position holds an entity with a given id. -/
def uniqueIds (l : List (Option ClientFile)) : Prop :=
  ∀ (i j : Nat) (f g : ClientFile), l[i]? = some (some f) → l[j]? = some (some g) →
    f.id = g.id → i = j

/-- Every binding of the index points at a position holding an entity with
the bound id. -/
def indexSound (idx : List (Nat × Nat)) (l : List (Option ClientFile)) : Prop :=
  ∀ (id j : Nat), mapGet idx id = some j → ∃ f, l[j]? = some (some f) ∧ f.id = id

/-- Every id present in the collection is indexed, at the position holding
its entity. -/
def indexComplete (idx : List (Nat × Nat)) (l : List (Option ClientFile)) : Prop :=
  ∀ (j : Nat) (f : ClientFile), l[j]? = some (some f) → mapGet idx f.id = some j

/-- `updateFileListState` never changes the file list itself. -/
theorem updateFileListState_fileList (s : FileStoreState) :
    (updateFileListState s).fileList = s.fileList := by
  unfold updateFileListState
  split
  · rfl
  split <;> rfl

/-- `updateFileListState` always rebuilds the index from the current list. -/
theorem updateFileListState_index (s : FileStoreState) :
    (updateFileListState s).index = buildIndex s.fileList := by
  unfold updateFileListState
  split
  · rfl
  split <;> rfl

/-- A snapshot whose index was produced by the rebuild loop only resolves ids
to entities carrying them. -/
theorem lookupExisting_buildIndex_sound {l : List (Option ClientFile)} {id : Nat}
    {g : ClientFile} (h : lookupExisting (buildIndex l) l id = some g) : g.id = id := by
  obtain ⟨j, hj, hs⟩ := lookupExisting_eq_some_iff.mp h
  obtain ⟨f, hjf, hfid⟩ := buildIndex_sound hj
  rw [hs] at hjf
  injection hjf with hjf
  injection hjf with hjf
  subst hjf
  exact hfid

/-- Feeding an entity whose tag list and extra-property map already are (or
already compare equal to) the filtered incoming values back through
`reconcileExisting` returns it untouched. -/
theorem reconcileExisting_stable (env : Env) (f : FileDTO) (file : ClientFile)
    (ht : tagsDiffer file.tags (f.tags.filter env.tagExists) = false ∨
      file.tags = dedupFirst (f.tags.filter env.tagExists))
    (he : epDiffer file.extraProperties
        (f.extraProperties.filter (fun kv => env.epExists kv.1)) = false ∨
      file.extraProperties = f.extraProperties.filter (fun kv => env.epExists kv.1)) :
    reconcileExisting env f file = file := by
  have hfile1 : (if tagsDiffer file.tags (f.tags.filter env.tagExists) then
      { file with tags := dedupFirst (f.tags.filter env.tagExists) } else file) = file := by
    rcases ht with ht | ht
    · rw [ht]
      rfl
    · split
      · rw [← ht]
      · rfl
  have hfile2 : (if epDiffer file.extraProperties
      (f.extraProperties.filter (fun kv => env.epExists kv.1)) then
      { file with extraProperties :=
        f.extraProperties.filter (fun kv => env.epExists kv.1) } else file) = file := by
    rcases he with he | he
    · rw [he]
      rfl
    · split
      · rw [← he]
      · rfl
  show (if epDiffer (if tagsDiffer file.tags (f.tags.filter env.tagExists) then
      { file with tags := dedupFirst (f.tags.filter env.tagExists) } else file).extraProperties
      (f.extraProperties.filter (fun kv => env.epExists kv.1)) then
      { (if tagsDiffer file.tags (f.tags.filter env.tagExists) then
        { file with tags := dedupFirst (f.tags.filter env.tagExists) } else file) with
        extraProperties := f.extraProperties.filter (fun kv => env.epExists kv.1) }
    else (if tagsDiffer file.tags (f.tags.filter env.tagExists) then
      { file with tags := dedupFirst (f.tags.filter env.tagExists) } else file)) = file
  rw [hfile1]
  exact hfile2

/-- Whatever `reconcileExisting` produced, its tag list and extra-property
map are each either unchanged-compare-equal against the filtered incoming
values or literally those values. -/
theorem reconcileExisting_shape (env : Env) (f : FileDTO) (g : ClientFile) :
    (tagsDiffer (reconcileExisting env f g).tags (f.tags.filter env.tagExists) = false ∨
      (reconcileExisting env f g).tags = dedupFirst (f.tags.filter env.tagExists)) ∧
    (epDiffer (reconcileExisting env f g).extraProperties
        (f.extraProperties.filter (fun kv => env.epExists kv.1)) = false ∨
      (reconcileExisting env f g).extraProperties =
        f.extraProperties.filter (fun kv => env.epExists kv.1)) := by
  by_cases hT : tagsDiffer g.tags (f.tags.filter env.tagExists) <;>
    by_cases hE : epDiffer g.extraProperties
      (f.extraProperties.filter (fun kv => env.epExists kv.1))
  · exact ⟨Or.inr (by simp [reconcileExisting, hT, hE]),
      Or.inr (by simp [reconcileExisting, hT, hE])⟩
  · refine ⟨Or.inr (by simp [reconcileExisting, hT, hE]), Or.inl ?_⟩
    simp only [reconcileExisting, if_pos hT]
    rw [if_neg (by simpa using hE)]
    simpa using hE
  · exact ⟨Or.inl (by simp [reconcileExisting, hT, hE]),
      Or.inr (by simp [reconcileExisting, hT, hE])⟩
  · refine ⟨Or.inl ?_, Or.inl ?_⟩
    · simp only [reconcileExisting, if_neg (by simpa using hT : ¬ tagsDiffer g.tags
        (f.tags.filter env.tagExists) = true)]
      rw [if_neg (by simpa using hE)]
      simpa using hT
    · simp only [reconcileExisting, if_neg (by simpa using hT : ¬ tagsDiffer g.tags
        (f.tags.filter env.tagExists) = true)]
      rw [if_neg (by simpa using hE)]
      simpa using hE

/-- Any entity a clean run wrote at a record's slot passes back through
`reconcileExisting` against that record untouched. -/
theorem reconcileExisting_stable_of_posSpec (env : Env) (files : List FileDTO)
    (transList : List (Option ClientFile)) (transIdx : List (Nat × Nat)) (nU : Nat)
    {i : Nat} {f : ClientFile} {rec : FileDTO}
    (hf : files[i]? = some rec)
    (hspec : PosSpec env files transList transIdx nU i f) :
    reconcileExisting env rec f = f := by
  obtain ⟨rec', hrec', hcase⟩ := hspec
  rw [hf] at hrec'
  injection hrec' with hrec'
  subst hrec'
  rcases hcase with ⟨g, -, hfg⟩ | ⟨-, u, -, hfu⟩
  · subst hfg
    obtain ⟨ht, he⟩ := reconcileExisting_shape env rec g
    exact reconcileExisting_stable env rec _ ht he
  · subst hfu
    exact reconcileExisting_stable env rec _ (Or.inr rfl) (Or.inr rfl)

/-! ## The claims -/

set_option maxRecDepth 8000

/-- Claim C2: for `total = 1000`, `anchorIndex = 500` and `batchSize = 100`,
the first batch processed is exactly the position range `[450, 549]`
(`initialBatchIndex = 5` with positions `range' 450 100`); the visiting
order alternates outward from the initial batch (`+1, -1, +2, -2, ...`,
giving `[5, 6, 4, 7, 3, 8, 2, 9, 1, 10, 0]`), skipping indices outside
`[0, totalBatches) = [0, 11)`; each batch's range is clamped to
`[0, 999]` (batch 0 covers `[0, 49]`, batch 10 covers `[950, 999]`); and
every batch is scheduled exactly once (the order has no duplicates and
contains every index below 11). -/
theorem c2_batch_order_determinism :
    initialBatchIndex 1000 100 500 = 5 ∧
    totalBatches 1000 100 500 = 11 ∧
    ffbOrder 1000 100 500 = [5, 6, 4, 7, 3, 8, 2, 9, 1, 10, 0] ∧
    batchPositions (absoluteBatchStart 1000 100 500) 100 1000 5 = List.range' 450 100 ∧
    batchPositions (absoluteBatchStart 1000 100 500) 100 1000 0 = List.range' 0 50 ∧
    batchPositions (absoluteBatchStart 1000 100 500) 100 1000 10 = List.range' 950 50 ∧
    (ffbOrder 1000 100 500).Nodup ∧
    (∀ k : Nat, k < 11 → (k : Int) ∈ ffbOrder 1000 100 500) ∧
    (∀ k ∈ ffbOrder 1000 100 500,
      ∀ i ∈ batchPositions (absoluteBatchStart 1000 100 500) 100 1000 k, i < 1000) := by
  decide

/-- Claim C8, counterexample: the stored average does not converge toward
150 — under the `(prev + duration) / 2` rule on the alternating inputs
100, 200, 100, 200, ... there is no point after which it stays within 12 of
150 (from the third sample on, every even-indexed value is at most
`400/3 ≈ 133.3`). -/
theorem c8_counterexample :
    ¬ ∃ N : Nat, ∀ n : Nat, N ≤ n → |storedAvg n - 150| < 12 := by
  rintro ⟨N, hN⟩
  have hval := storedAvg_even_closed N
  have hqpos : (0 : Rat) < (1 / 4) ^ N := by positivity
  have hle : storedAvg (2 * N + 2) ≤ 400 / 3 := by
    rw [hval]
    linarith
  have habs := hN (2 * N + 2) (by omega)
  rw [abs_lt] at habs
  linarith [habs.1]

/-- Claim C8, amended: starting from no stored value, the first alternating
sample is stored as-is (100) and the second stored average is exactly 150;
thereafter the stored average oscillates, staying within 25 of 150 forever,
but it converges to the two-cycle `400/3, 500/3` (whose midpoint is 150)
rather than to 150, per the closed forms
`storedAvg (2k+2) = 400/3 - (25/3)(1/4)^k` and
`storedAvg (2k+3) = 500/3 - (25/6)(1/4)^k`. -/
theorem c8_estimator_two_cycle :
    storedAvg 0 = 100 ∧ storedAvg 1 = 150 ∧
    (∀ k : Nat, storedAvg (2 * k + 2) = 400 / 3 - (25 / 3) * (1 / 4) ^ k ∧
      storedAvg (2 * k + 3) = 500 / 3 - (25 / 6) * (1 / 4) ^ k) ∧
    (∀ n : Nat, 1 ≤ n → |storedAvg n - 150| ≤ 25) := by
  refine ⟨storedAvg_zero, storedAvg_one, ?_, ?_⟩
  · intro k
    exact ⟨storedAvg_even_closed k, storedAvg_odd_closed k⟩
  · intro n hn
    rcases Nat.lt_or_ge n 2 with h2 | h2
    · have : n = 1 := by omega
      subst this
      rw [storedAvg_one]
      norm_num
    · obtain ⟨k, hk⟩ : ∃ k, n = 2 * k + 2 ∨ n = 2 * k + 3 := ⟨(n - 2) / 2, by omega⟩
      have hq1 : (0 : Rat) < (1 / 4) ^ k := by positivity
      have hq2 : ((1 : Rat) / 4) ^ k ≤ 1 := pow_le_one₀ (by norm_num) (by norm_num)
      rcases hk with hk | hk <;> subst hk
      · rw [storedAvg_even_closed, abs_le]
        constructor <;> linarith
      · rw [storedAvg_odd_closed, abs_le]
        constructor <;> linarith

/-- Claim C8 witness for the amended statement. -/
theorem c8_witness : |storedAvg 4 - 150| ≤ 25 :=
  c8_estimator_two_cycle.2.2.2 4 (by norm_num)

/-- Claim C10: with `updateObservable = false` the observable file list and
id-to-index map are untouched by `filesFromBackend` — under any concurrency
schedule the state it returns carries the caller's `fileList` and `index`
unchanged — while the reconciled results go into the freshly allocated
returned array (one slot per input record, and on an undisturbed run every
record's slot is filled). -/
theorem c10_update_observable_frame (env : Env) (s : FileStoreState) (nU : Nat)
    (files : List FileDTO) (B fi subId : Nat) (hB : 1 ≤ B) :
    (∀ sched,
      (filesFromBackend env s nU files false B fi subId sched).state.fileList =
          s.fileList ∧
        (filesFromBackend env s nU files false B fi subId sched).state.index = s.index) ∧
    (∀ sched, CleanSched sched →
      (filesFromBackend env s nU files false B fi subId sched).newFiles.length =
          files.length ∧
        ∀ (i : Nat) (rec : FileDTO), files[i]? = some rec →
          ∃ f, (filesFromBackend env s nU files false B fi subId sched).newFiles[i]? =
            some (some f)) := by
  refine ⟨fun sched => ⟨rfl, rfl⟩, fun sched hclean => ⟨?_, ?_⟩⟩
  · exact ffbRun_target_length env s nU files B fi subId sched
  · intro i rec hf
    obtain ⟨f, hfw, -⟩ := ffbRun_content env s nU files B fi subId sched hB hclean hf
    exact ⟨f, hfw⟩

/-- Claim C10 witness at a concrete one-record input. -/
theorem c10_witness :
    (filesFromBackend exEnv emptyStore 0 [exRec1] false 1 0 9 []).state.fileList =
        emptyStore.fileList ∧
      (filesFromBackend exEnv emptyStore 0 [exRec1] false 1 0 9 []).state.index =
        emptyStore.index ∧
      (filesFromBackend exEnv emptyStore 0 [exRec1] false 1 0 9 []).newFiles.length = 1 := by
  have h := c10_update_observable_frame exEnv emptyStore 0 [exRec1] 1 0 9 (by norm_num)
  have hclean : CleanSched [] := by intro x hx; cases hx
  exact ⟨(h.1 []).1, (h.1 []).2, (h.2 [] hclean).1⟩

/-- Claim C4: if a record's id resolves in the start-of-run snapshot to an
existing entity whose tag list and extra-property map are unchanged (neither
`tagsDiffer` nor `epDiffer` fires against the filtered incoming values), a
clean run writes that entity itself — bitwise identical, hence with its
cached thumbnail path — at the record's position, and `reconcileExisting`
performs no write on it at all. -/
theorem c4_reuse_reference_equality (env : Env) (s : FileStoreState) (nU : Nat)
    (files : List FileDTO) (B fi subId : Nat) (sched : List (Option (Nat × Nat)))
    (hB : 1 ≤ B) (hclean : CleanSched sched) {i : Nat} {rec : FileDTO}
    (hf : files[i]? = some rec) {g : ClientFile}
    (hg : lookupExisting s.index s.fileList rec.id = some g)
    (ht : tagsDiffer g.tags (rec.tags.filter env.tagExists) = false)
    (he : epDiffer g.extraProperties
      (rec.extraProperties.filter (fun kv => env.epExists kv.1)) = false) :
    (ffbRun env s nU files B fi subId sched).target[i]? = some (some g) ∧
      reconcileExisting env rec g = g := by
  have hunch := reconcileExisting_unchanged env rec g ht he
  constructor
  · rw [ffbRun_content_reuse env s nU files B fi subId sched hB hclean hf hg, hunch]
  · exact hunch

/-- Claim C4 witness: `exRec1` against the store already holding `exFile1`. -/
theorem c4_witness :
    (ffbRun exEnv exStore1 100 [exRec1] 4 0 9 []).target[0]? = some (some exFile1) ∧
      reconcileExisting exEnv exRec1 exFile1 = exFile1 :=
  c4_reuse_reference_equality exEnv exStore1 100 [exRec1] 4 0 9 []
    (by norm_num) (by intro x hx; cases hx) (by rfl) (by rfl) (by decide) (by decide)

/-- Claim C3, counterexample: a backend rejection in `fetchAllFiles` is NOT
surfaced as a hard error to the caller — the entry point's `try`/`catch`
swallows it: nothing is thrown to the caller, the error is only logged, and
the collection is left unchanged. -/
theorem c3_counterexample :
    (fetchAllFiles exEnv exStore1 0 3 (Except.error 7) none 0 0 4 0 9 []
        (fun _ => true)).thrownToCaller = none ∧
      (fetchAllFiles exEnv exStore1 0 3 (Except.error 7) none 0 0 4 0 9 []
        (fun _ => true)).loggedErrors = [7] ∧
      (fetchAllFiles exEnv exStore1 0 3 (Except.error 7) none 0 0 4 0 9 []
        (fun _ => true)).state.fileList = exStore1.fileList :=
  ⟨rfl, rfl, rfl⟩

/-- Claim C3, amended: when the record source rejects before any batch is
produced, no batch is committed and the collection (file list and index) is
left unchanged — but the failure is caught inside the entry point and only
logged (`thrownToCaller = none`, the error lands in `loggedErrors`), never
propagated to the caller of `fetchAllFiles` / `fetchFilesByQuery`. -/
theorem c3_source_failure_swallowed (env : Env) (s : FileStoreState)
    (nU now e key2 : Nat) (interPair : Option (Nat × Nat)) (dur : Rat)
    (B fi subId : Nat) (sched : List (Option (Nat × Nat))) (probe : Nat → Bool)
    (criteriaEmpty : Bool) :
    ((fetchAllFiles env s nU now (Except.error e) interPair key2 dur B fi subId sched
          probe).state.fileList = s.fileList ∧
      (fetchAllFiles env s nU now (Except.error e) interPair key2 dur B fi subId sched
          probe).state.index = s.index ∧
      (fetchAllFiles env s nU now (Except.error e) interPair key2 dur B fi subId sched
          probe).thrownToCaller = none ∧
      (fetchAllFiles env s nU now (Except.error e) interPair key2 dur B fi subId sched
          probe).loggedErrors = [e]) ∧
    ((fetchFilesByQuery env s nU criteriaEmpty now (Except.error e) interPair key2 dur B
          fi subId sched probe).state.fileList = s.fileList ∧
      (fetchFilesByQuery env s nU criteriaEmpty now (Except.error e) interPair key2 dur B
          fi subId sched probe).state.index = s.index ∧
      (fetchFilesByQuery env s nU criteriaEmpty now (Except.error e) interPair key2 dur B
          fi subId sched probe).thrownToCaller = none ∧
      (fetchFilesByQuery env s nU criteriaEmpty now (Except.error e) interPair key2 dur B
          fi subId sched probe).loggedErrors = [e]) := by
  have hAll : (fetchAllFiles env s nU now (Except.error e) interPair key2 dur B fi subId
        sched probe).state.fileList = s.fileList ∧
      (fetchAllFiles env s nU now (Except.error e) interPair key2 dur B fi subId sched
        probe).state.index = s.index ∧
      (fetchAllFiles env s nU now (Except.error e) interPair key2 dur B fi subId sched
        probe).thrownToCaller = none ∧
      (fetchAllFiles env s nU now (Except.error e) interPair key2 dur B fi subId sched
        probe).loggedErrors = [e] := by
    cases interPair with
    | none => exact ⟨rfl, rfl, rfl, rfl⟩
    | some p => exact ⟨rfl, rfl, rfl, rfl⟩
  refine ⟨hAll, ?_⟩
  cases criteriaEmpty with
  | true => exact hAll
  | false =>
      cases interPair with
      | none => exact ⟨rfl, rfl, rfl, rfl⟩
      | some p => exact ⟨rfl, rfl, rfl, rfl⟩

/-- Claim C6, counterexample: a run of `updateFromBackend` whose schedule
flips the authoritative epoch pair at the suspension point after the final
batch still finishes with `Success`, and its existence-verification tail
applies the probe results with no staleness re-check: `exFile1` gets its
broken flag set and the missing counter moves even though the store's
authoritative fetch id (99) no longer matches the one captured at the start
(`exStore1.fetchTaskIdPair.1 = 0`). -/
theorem c6_counterexample :
    (updateFromBackend exEnv exStore1 100 [exRec1] 4 0 9 [some (99, 99)]
        (fun _ => false)).status = Status.success ∧
      (updateFromBackend exEnv exStore1 100 [exRec1] 4 0 9 [some (99, 99)]
        (fun _ => false)).state.fetchTaskIdPair.1 ≠ exStore1.fetchTaskIdPair.1 ∧
      (updateFromBackend exEnv exStore1 100 [exRec1] 4 0 9 [some (99, 99)]
        (fun _ => false)).state.fileList = [some (setBroken exFile1 true)] ∧
      (updateFromBackend exEnv exStore1 100 [exRec1] 4 0 9 [some (99, 99)]
        (fun _ => false)).state.numMissingFiles = 1 := by
  decide

/-- Claim C6, amended: the `fetchMissingFiles` tail re-checks staleness only
before its commit — when the captured fetch id is no longer authoritative
the file-list replacement and the missing-counter write are skipped (index,
missing counter and list length are untouched) — but the probe results have
already been computed and applied before that re-check: the load counter is
clobbered unconditionally, and every live entity aliased with a probed one
(same uid) already carries the broken-flag write, while non-aliased live
entities are untouched; the `updateFromBackend` tail applies the probe
results to every entity of the live list unconditionally, with no staleness
re-check anywhere. -/
theorem c6_staleness_recheck (probe : Nat → Bool) (start : Nat) (s : FileStoreState)
    (newFiles : List (Option ClientFile)) :
    (s.fetchTaskIdPair.1 ≠ start →
      (fetchMissingApplyPhase probe start s newFiles).1.index = s.index ∧
      (fetchMissingApplyPhase probe start s newFiles).1.numMissingFiles =
        s.numMissingFiles ∧
      (fetchMissingApplyPhase probe start s newFiles).1.fileList.length =
        s.fileList.length ∧
      (fetchMissingApplyPhase probe start s newFiles).1.numLoadedFiles =
        (if (newFiles.filterMap id).length = 0 then 0
          else (newFiles.filterMap id).length - 1) ∧
      (∀ (j : Nat) (g : ClientFile), s.fileList[j]? = some (some g) →
        ((newFiles.filterMap id).any (fun f => f.uid == g.uid) →
          (fetchMissingApplyPhase probe start s newFiles).1.fileList[j]? =
            some (some (setBroken g (!(probe g.absolutePath))))) ∧
        (¬ (newFiles.filterMap id).any (fun f => f.uid == g.uid) →
          (fetchMissingApplyPhase probe start s newFiles).1.fileList[j]? =
            some (some g)))) ∧
    ((fetchMissingApplyPhase probe start s newFiles).2 =
      applyExistenceChecks probe newFiles) ∧
    ((updateFromBackendExistencePhase probe s).fileList =
      applyExistenceChecks probe s.fileList) := by
  have hstale : ∀ (_h : s.fetchTaskIdPair.1 ≠ start),
      (fetchMissingApplyPhase probe start s newFiles).1 =
      { s with
        fileList := s.fileList.map (Option.map (fun g =>
          if (newFiles.filterMap id).any (fun f => f.uid == g.uid) then
            setBroken g (!(probe g.absolutePath))
          else g))
        numLoadedFiles := if (newFiles.filterMap id).length = 0 then 0
          else (newFiles.filterMap id).length - 1 } := by
    intro h
    unfold fetchMissingApplyPhase
    rw [if_pos (Or.inr h)]
  refine ⟨fun h => ?_, ?_, ?_⟩
  · rw [hstale h]
    refine ⟨rfl, rfl, by simp, rfl, ?_⟩
    intro j g hjg
    constructor
    · intro hal
      show (s.fileList.map (Option.map (fun g =>
        if (newFiles.filterMap id).any (fun f => f.uid == g.uid) then
          setBroken g (!(probe g.absolutePath))
        else g)))[j]? = _
      rw [List.getElem?_map, hjg]
      simp only [Option.map_some']
      rw [if_pos hal]
    · intro hal
      show (s.fileList.map (Option.map (fun g =>
        if (newFiles.filterMap id).any (fun f => f.uid == g.uid) then
          setBroken g (!(probe g.absolutePath))
        else g)))[j]? = _
      rw [List.getElem?_map, hjg]
      simp only [Option.map_some']
      rw [if_neg hal]
  · simp only [fetchMissingApplyPhase]
    split <;> rfl
  · simp only [updateFromBackendExistencePhase]
    rw [updateFileListState_fileList, updateFileListState_fileList]

/-- Claim C7: running the reconciliation twice with an unchanged record set
(pairwise-distinct ids) and no interference between or during the runs
leaves the collection exactly as the first run left it — the second run
reuses every entity in place (its file list is the same list of entities),
constructs nothing, disposes nothing, and returns `Success`. -/
theorem c7_idempotence (env : Env) (s : FileStoreState) (nU nU2 : Nat)
    (files : List FileDTO) (B fi fi2 subId subId2 : Nat)
    (sched sched2 : List (Option (Nat × Nat)))
    (hB : 1 ≤ B) (hclean : CleanSched sched) (hclean2 : CleanSched sched2)
    (hids : ∀ (i j : Nat) (ri rj : FileDTO), files[i]? = some ri → files[j]? = some rj →
      ri.id = rj.id → i = j)
    (hsnap : ∀ (id : Nat) (g : ClientFile),
      lookupExisting s.index s.fileList id = some g → g.id = id) :
    (filesFromBackend env (filesFromBackend env s nU files true B fi subId sched).state
        nU2 files true B fi2 subId2 sched2).state.fileList =
      (filesFromBackend env s nU files true B fi subId sched).state.fileList ∧
    (filesFromBackend env (filesFromBackend env s nU files true B fi subId sched).state
        nU2 files true B fi2 subId2 sched2).created = [] ∧
    (filesFromBackend env (filesFromBackend env s nU files true B fi subId sched).state
        nU2 files true B fi2 subId2 sched2).disposed = [] ∧
    (filesFromBackend env (filesFromBackend env s nU files true B fi subId sched).state
        nU2 files true B fi2 subId2 sched2).status = Status.success := by
  set s1 := (filesFromBackend env s nU files true B fi subId sched).state with hs1
  have hslot : ∀ {i : Nat} {rec : FileDTO}, files[i]? = some rec →
      ∃ f, s1.fileList[i]? = some (some f) ∧
        lookupExisting s1.index s1.fileList rec.id = some f ∧
        reconcileExisting env rec f = f ∧ f.id = rec.id := by
    intro i rec hf
    obtain ⟨f, hfw, hspec⟩ := ffbRun_content env s nU files B fi subId sched hB hclean hf
    have hidx : mapGet (ffbRun env s nU files B fi subId sched).tIdx rec.id = some i :=
      ffbRun_index_exact env s nU files B fi subId sched hB hclean hids hsnap hf
    have hfw' : s1.fileList[i]? = some (some f) := by
      rw [hs1, ffb_state_fileList_live]
      exact hfw
    have hlook : lookupExisting s1.index s1.fileList rec.id = some f := by
      refine lookupExisting_eq_some_iff.mpr ⟨i, ?_, hfw'⟩
      rw [hs1, ffb_state_index_live]
      exact hidx
    have hstab := reconcileExisting_stable_of_posSpec env files s.fileList s.index nU
      hf hspec
    have hfid : f.id = rec.id := by
      obtain ⟨rec', hrec', hcase⟩ := hspec
      rw [hf] at hrec'
      injection hrec' with hrec'
      subst hrec'
      rcases hcase with ⟨g, hg, hfg⟩ | ⟨-, u, -, hfu⟩
      · rw [hfg, (reconcileExisting_fields env rec g).2.1]
        exact hsnap rec.id g hg
      · rw [hfu]
        rfl
    exact ⟨f, hfw', hlook, hstab, hfid⟩
  have hlen1 : s1.fileList.length = files.length := by
    rw [hs1, ffb_state_fileList_live]
    exact ffbRun_target_length env s nU files B fi subId sched
  have hlen2 : (ffbRun env s1 nU2 files B fi2 subId2 sched2).target.length =
      files.length := ffbRun_target_length env s1 nU2 files B fi2 subId2 sched2
  refine ⟨?_, ?_, ?_, ?_⟩
  · rw [ffb_state_fileList_live]
    apply List.ext_getElem?
    intro i
    rcases lt_or_ge i files.length with hi | hi
    · obtain ⟨rec, hf⟩ : ∃ rec, files[i]? = some rec :=
        ⟨files[i], List.getElem?_eq_getElem hi⟩
      obtain ⟨f, hfw', hlook, hstab, -⟩ := hslot hf
      rw [ffbRun_content_reuse env s1 nU2 files B fi2 subId2 sched2 hB hclean2 hf hlook,
        hstab, hfw']
    · rw [List.getElem?_eq_none (by rw [hlen2]; exact hi),
        List.getElem?_eq_none (by rw [hlen1]; exact hi)]
  · rw [ffb_created]
    apply ffbRun_created_nil
    intro i rec hf
    obtain ⟨f, -, hlook, -, -⟩ := hslot hf
    rw [hlook]
    rfl
  · rw [ffb_disposed]
    rw [List.filterMap_eq_nil_iff]
    intro of hof
    cases of with
    | none => rfl
    | some f =>
        obtain ⟨j, hj, hjf⟩ := List.getElem_of_mem hof
        have hjf2 : s1.fileList[j]? = some (some f) := by
          rw [List.getElem?_eq_getElem hj, hjf]
        have hjlt : j < files.length := by
          rw [← hlen1]
          exact hj
        obtain ⟨rec, hrec⟩ : ∃ rec, files[j]? = some rec :=
          ⟨files[j], List.getElem?_eq_getElem hjlt⟩
        obtain ⟨f', hfw', hlook, -, hfid⟩ := hslot hrec
        have hff : f = f' := by
          rw [hjf2] at hfw'
          simpa using hfw'
        subst hff
        have hmem : f.id ∈ (ffbRun env s1 nU2 files B fi2 subId2 sched2).reused :=
          ffbRun_reused_hit env s1 nU2 files B fi2 subId2 sched2 hB hclean2 hrec hlook
        simp [hmem]
  · rw [ffb_status]
    exact (ffbRun_clean env s1 nU2 files B fi2 subId2 sched2 hclean2).1

/-- Claim C7 witness on a two-record input over the fixture store. -/
theorem c7_witness :
    (filesFromBackend exEnv
        (filesFromBackend exEnv exStore3 100 [exRec2, exRecD] true 2 0 9 []).state 200
        [exRec2, exRecD] true 2 1 8 []).state.fileList =
      (filesFromBackend exEnv exStore3 100 [exRec2, exRecD] true 2 0 9 []).state.fileList ∧
    (filesFromBackend exEnv
        (filesFromBackend exEnv exStore3 100 [exRec2, exRecD] true 2 0 9 []).state 200
        [exRec2, exRecD] true 2 1 8 []).created = [] ∧
    (filesFromBackend exEnv
        (filesFromBackend exEnv exStore3 100 [exRec2, exRecD] true 2 0 9 []).state 200
        [exRec2, exRecD] true 2 1 8 []).disposed = [] ∧
    (filesFromBackend exEnv
        (filesFromBackend exEnv exStore3 100 [exRec2, exRecD] true 2 0 9 []).state 200
        [exRec2, exRecD] true 2 1 8 []).status = Status.success :=
  c7_idempotence exEnv exStore3 100 200 [exRec2, exRecD] 2 0 1 9 8 [] []
    (by norm_num) (by intro x hx; cases hx) (by intro x hx; cases hx)
    (by
      intro i j ri rj hi hj hij
      have hi2 := (List.getElem?_eq_some_iff.mp hi).1
      have hj2 := (List.getElem?_eq_some_iff.mp hj).1
      simp only [List.length_cons, List.length_nil] at hi2 hj2
      interval_cases i <;> interval_cases j <;> simp_all [exRec2, exRecD] <;>
        (subst hi; subst hj; exact absurd hij (by decide)))
    (fun id g hg => lookupExisting_buildIndex_sound hg)

/-- Claim C5: with a start-of-run snapshot holding entities A, B, C and a
record set resolving to ids {B, C, D} (A's id matching no record), a
successful clean run disposes exactly A — its uid is the entire disposal
log, so its hook fires exactly once and B's and C's never — and constructs
a fresh entity for D at its record position. -/
theorem c5_disposal_completeness (env : Env) (s : FileStoreState) (nU : Nat)
    (B fi subId : Nat) (sched : List (Option (Nat × Nat))) (uo : Bool)
    (fA fB fC : ClientFile) (rB rC rD : FileDTO)
    (hB : 1 ≤ B) (hclean : CleanSched sched)
    (hsnap : ∀ (id : Nat) (g : ClientFile),
      lookupExisting s.index s.fileList id = some g → g.id = id)
    (hfl : s.fileList = [some fA, some fB, some fC])
    (hgB : lookupExisting s.index s.fileList rB.id = some fB)
    (hgC : lookupExisting s.index s.fileList rC.id = some fC)
    (hgD : lookupExisting s.index s.fileList rD.id = none)
    (hAB : fA.id ≠ rB.id) (hAC : fA.id ≠ rC.id) (_hAD : fA.id ≠ rD.id) :
    (filesFromBackend env s nU [rB, rC, rD] uo B fi subId sched).status =
        Status.success ∧
      (filesFromBackend env s nU [rB, rC, rD] uo B fi subId sched).disposed = [fA.uid] ∧
      ∃ u, nU ≤ u ∧
        (filesFromBackend env s nU [rB, rC, rD] uo B fi subId sched).newFiles[2]? =
          some (some (mkClientFile env u rD)) := by
  have hmemB : fB.id ∈ (ffbRun env s nU [rB, rC, rD] B fi subId sched).reused :=
    ffbRun_reused_hit env s nU [rB, rC, rD] B fi subId sched hB hclean
      (show ([rB, rC, rD][0]? = some rB) from rfl) hgB
  have hmemC : fC.id ∈ (ffbRun env s nU [rB, rC, rD] B fi subId sched).reused :=
    ffbRun_reused_hit env s nU [rB, rC, rD] B fi subId sched hB hclean
      (show ([rB, rC, rD][1]? = some rC) from rfl) hgC
  have hnotA : fA.id ∉ (ffbRun env s nU [rB, rC, rD] B fi subId sched).reused := by
    intro hmem
    obtain ⟨i, rec, g, hf, hg, hgid⟩ :=
      ffbRun_reused_subset env s nU [rB, rC, rD] B fi subId sched fA.id hmem
    have hrid : g.id = rec.id := hsnap rec.id g hg
    rcases i with _ | _ | _ | i
    · simp only [List.getElem?_cons_zero] at hf
      injection hf with hf
      subst hf
      exact hAB (by rw [← hgid, hrid])
    · simp only [List.getElem?_cons_succ, List.getElem?_cons_zero] at hf
      injection hf with hf
      subst hf
      exact hAC (by rw [← hgid, hrid])
    · simp only [List.getElem?_cons_succ, List.getElem?_cons_zero] at hf
      injection hf with hf
      subst hf
      rw [hgD] at hg
      cases hg
    · simp only [List.getElem?_cons_succ, List.getElem?_nil] at hf
      cases hf
  refine ⟨?_, ?_, ?_⟩
  · rw [ffb_status]
    exact (ffbRun_clean env s nU [rB, rC, rD] B fi subId sched hclean).1
  · rw [ffb_disposed, hfl]
    simp [hnotA, hmemB, hmemC]
  · show ∃ u, nU ≤ u ∧ (ffbRun env s nU [rB, rC, rD] B fi subId sched).target[2]? =
      some (some (mkClientFile env u rD))
    exact ffbRun_content_create env s nU [rB, rC, rD] B fi subId sched hB hclean
      (show ([rB, rC, rD][2]? = some rD) from rfl) hgD

/-- Claim C5 witness: `exFile1` is disposed exactly once while `exFile2` and
`exFile3` are reused and `exRecD` gets a fresh entity. -/
theorem c5_witness :
    (filesFromBackend exEnv exStore3 100 [exRec2, exRec3, exRecD] true 4 0 9 []).status =
        Status.success ∧
      (filesFromBackend exEnv exStore3 100 [exRec2, exRec3, exRecD] true 4 0 9
          []).disposed = [exFile1.uid] ∧
      ∃ u, 100 ≤ u ∧
        (filesFromBackend exEnv exStore3 100 [exRec2, exRec3, exRecD] true 4 0 9
            []).newFiles[2]? = some (some (mkClientFile exEnv u exRecD)) :=
  c5_disposal_completeness exEnv exStore3 100 4 0 9 [] true exFile1 exFile2 exFile3
    exRec2 exRec3 exRecD (by norm_num) (by intro x hx; cases hx)
    (fun id g hg => lookupExisting_buildIndex_sound hg) rfl (by decide) (by decide)
    (by decide) (by decide) (by decide) (by decide)

/-- Claim C9: with pairwise-distinct input record ids and an id-sound
start-of-run snapshot, every externally visible commit point keeps the
identity invariants: after `replaceFileList` (given its input list is
duplicate-free) at most one position holds a given id and the rebuilt index
is sound and complete — every binding points at a matching entity, and
every present id is indexed at its entity's position; after any prefix of
the batch loop (`ffbRunOn` over any visiting order) the working array holds
each id at most once and the working index is likewise sound and complete
over it; and after `updateFileListState` uniqueness is preserved and the
rebuilt index is sound and complete. -/
theorem c9_identity_uniqueness (env : Env) (s : FileStoreState) (nU : Nat)
    (files : List FileDTO) (B fi subId : Nat) (sched : List (Option (Nat × Nat)))
    (order : List Int) (newFiles : List (Option ClientFile))
    (hids : ∀ (i j : Nat) (ri rj : FileDTO), files[i]? = some ri → files[j]? = some rj →
      ri.id = rj.id → i = j)
    (hsnap : ∀ (id : Nat) (g : ClientFile),
      lookupExisting s.index s.fileList id = some g → g.id = id) :
    (uniqueIds newFiles →
      uniqueIds (replaceFileList s newFiles).fileList ∧
        indexSound (replaceFileList s newFiles).index
          (replaceFileList s newFiles).fileList ∧
        indexComplete (replaceFileList s newFiles).index
          (replaceFileList s newFiles).fileList) ∧
    (uniqueIds (ffbRunOn env s nU files B fi subId sched order).target ∧
      indexSound (ffbRunOn env s nU files B fi subId sched order).tIdx
        (ffbRunOn env s nU files B fi subId sched order).target ∧
      indexComplete (ffbRunOn env s nU files B fi subId sched order).tIdx
        (ffbRunOn env s nU files B fi subId sched order).target) ∧
    ((uniqueIds s.fileList →
        uniqueIds (updateFileListState s).fileList ∧
          indexComplete (updateFileListState s).index
            (updateFileListState s).fileList) ∧
      indexSound (updateFileListState s).index (updateFileListState s).fileList) := by
  have hwrite : ∀ (j : Nat) (idv : Nat),
      writeIdAt files s.fileList s.index j = some idv →
      ∃ rec, files[j]? = some rec ∧ rec.id = idv := by
    intro j idv hw
    unfold writeIdAt at hw
    cases hf : files[j]? with
    | none =>
        rw [hf] at hw
        cases hw
    | some rec =>
        rw [hf] at hw
        simp only [Option.map_some'] at hw
        injection hw with hw
        refine ⟨rec, rfl, ?_⟩
        cases hg : lookupExisting s.index s.fileList rec.id with
        | none =>
            rw [hg] at hw
            exact hw
        | some g =>
            rw [hg] at hw
            exact (hsnap rec.id g hg).symm.trans hw
  refine ⟨?_, ⟨?_, ?_, ?_⟩, ?_, ?_⟩
  · intro h
    refine ⟨h, ?_, ?_⟩
    · intro id j hj
      exact buildIndex_sound hj
    · intro j f hjf
      exact buildIndex_found hjf (fun j2 f2 hj2 hid2 => h j2 j f2 f hj2 hjf hid2)
  · intro i j f g hif hjg hfg
    obtain ⟨-, -, -, -, hW⟩ := ffbRunOn_runInv env s nU files B fi subId sched order
    obtain ⟨ri, hfi, hri⟩ := hwrite i f.id (hW i f hif)
    obtain ⟨rj, hfj, hrj⟩ := hwrite j g.id (hW j g hjg)
    exact hids i j ri rj hfi hfj (by rw [hri, hrj, hfg])
  · intro id j hj
    obtain ⟨-, -, -, hI, -⟩ := ffbRunOn_runInv env s nU files B fi subId sched order
    exact hI id j hj
  · intro j f hjf
    obtain ⟨-, -, -, -, hW⟩ := ffbRunOn_runInv env s nU files B fi subId sched order
    obtain ⟨rec, hfj, hrid⟩ := hwrite j f.id (hW j f hjf)
    have hc := ffbRunOn_index_inv env s nU files B fi subId sched hids hsnap order j rec
      hfj ⟨f, hjf⟩
    rw [hrid] at hc
    exact hc
  · intro h
    refine ⟨?_, ?_⟩
    · rw [updateFileListState_fileList]
      exact h
    · intro j f hjf
      rw [updateFileListState_fileList] at hjf
      rw [updateFileListState_index]
      exact buildIndex_found hjf (fun j2 f2 hj2 hid2 => h j2 j f2 f hj2 hjf hid2)
  · intro id j hj
    rw [updateFileListState_index] at hj
    rw [updateFileListState_fileList]
    exact buildIndex_sound hj

/-- Claim C9 witness over the fixture store. -/
theorem c9_witness :
    uniqueIds (ffbRunOn exEnv exStore3 100 [exRec1] 4 0 9 [] []).target ∧
      indexComplete (ffbRunOn exEnv exStore3 100 [exRec1] 4 0 9 [] []).tIdx
        (ffbRunOn exEnv exStore3 100 [exRec1] 4 0 9 [] []).target ∧
      indexSound (updateFileListState exStore3).index
        (updateFileListState exStore3).fileList ∧
      indexComplete (updateFileListState exStore3).index
        (updateFileListState exStore3).fileList := by
  have huniq : uniqueIds exStore3.fileList := by
    intro i j f g hif hjg hfg
    have hi2 := (List.getElem?_eq_some_iff.mp hif).1
    have hj2 := (List.getElem?_eq_some_iff.mp hjg).1
    simp only [exStore3, emptyStore, List.length_cons, List.length_nil] at hi2 hj2
    interval_cases i <;> interval_cases j <;>
      simp_all [exStore3, emptyStore, exFile1, exFile2, exFile3] <;>
      (subst hif; subst hjg; exact absurd hfg (by decide))
  have h := c9_identity_uniqueness exEnv exStore3 100 [exRec1] 4 0 9 [] [] [some exFile2]
    (by
      intro i j ri rj hi hj hij
      have hi2 := (List.getElem?_eq_some_iff.mp hi).1
      have hj2 := (List.getElem?_eq_some_iff.mp hj).1
      simp only [List.length_cons, List.length_nil] at hi2 hj2
      omega)
    (fun id g hg => lookupExisting_buildIndex_sound hg)
  exact ⟨h.2.1.1, h.2.1.2.2, h.2.2.2, (h.2.2.1 huniq).2⟩

/-- Claim C1: a run whose epoch pair is overwritten at the suspension point
after batch `m` observes the mismatch at the next position boundary and
returns `Aborted`, its output array holding exactly what the first `m + 1`
batches committed (no further batch is committed); the disposal pass still
runs over the start-of-run snapshot, disposing every entity whose id was
never marked reused; and a subsequent run under the newest epoch, left
undisturbed, returns `Success` with a collection that spans exactly its own
record list, holding at every position an entity carrying that record's
id. -/
theorem c1_cancellation (env : Env) (s s2 : FileStoreState) (nU nU2 : Nat)
    (files1 files2 : List FileDTO) (uo : Bool) (B fi subId subId2 : Nat)
    (m : Nat) (p : Nat × Nat) (rest sched2 : List (Option (Nat × Nat)))
    (hB : 1 ≤ B) (htotal : 1 ≤ files1.length)
    (hp : s.fetchTaskIdPair.1 ≠ p.1 ∨ subId ≠ p.2)
    (hm : m + 1 < (ffbOrder files1.length B fi).length)
    (hclean2 : CleanSched sched2)
    (hsnap2 : ∀ (id : Nat) (g : ClientFile),
      lookupExisting s2.index s2.fileList id = some g → g.id = id) :
    (filesFromBackend env s nU files1 uo B fi subId
        (List.replicate m none ++ some p :: rest)).status = Status.aborted ∧
    (filesFromBackend env s nU files1 uo B fi subId
        (List.replicate m none ++ some p :: rest)).newFiles =
      (ffbRunOn env s nU files1 B fi subId (List.replicate m none ++ some p :: rest)
        ((ffbOrder files1.length B fi).take (m + 1))).target ∧
    (∀ f : ClientFile, some f ∈ s.fileList →
      f.id ∉ (filesFromBackend env s nU files1 uo B fi subId
        (List.replicate m none ++ some p :: rest)).reused →
      f.uid ∈ (filesFromBackend env s nU files1 uo B fi subId
        (List.replicate m none ++ some p :: rest)).disposed) ∧
    (filesFromBackend env s2 nU2 files2 true B fi subId2 sched2).status =
      Status.success ∧
    (filesFromBackend env s2 nU2 files2 true B fi subId2 sched2).state.fileList.length =
      files2.length ∧
    (∀ (i : Nat) (rec : FileDTO), files2[i]? = some rec →
      ∃ f, (filesFromBackend env s2 nU2 files2 true B fi subId2 sched2).state.fileList[i]? =
        some (some f) ∧ f.id = rec.id) := by
  have hflip := ffbRun_flip env s nU files1 B fi subId m p rest hB htotal hp hm
  refine ⟨?_, ?_, ?_, ?_, ?_, ?_⟩
  · rw [ffb_status]
    exact hflip.1
  · show (ffbRun env s nU files1 B fi subId
        (List.replicate m none ++ some p :: rest)).target = _
    exact hflip.2
  · intro f hmem hnr
    exact ffb_disposed_of_not_reused env s nU files1 B fi subId
      (List.replicate m none ++ some p :: rest) uo hmem hnr
  · rw [ffb_status]
    exact (ffbRun_clean env s2 nU2 files2 B fi subId2 sched2 hclean2).1
  · rw [ffb_state_fileList_live]
    exact ffbRun_target_length env s2 nU2 files2 B fi subId2 sched2
  · intro i rec hf
    exact ffb_ids_match env s2 nU2 files2 B fi subId2 sched2 hB hclean2 hsnap2 hf

/-- Claim C1 witness: a two-record run whose pair flips after its first
batch aborts, and an undisturbed one-record run over the fixture store
succeeds. -/
theorem c1_witness :
    (filesFromBackend exEnv emptyStore 0 [exRec1, exRec2] true 1 0 9
        [some (5, 5)]).status = Status.aborted ∧
      (filesFromBackend exEnv exStore3 100 [exRec3] true 1 0 8 []).status =
        Status.success ∧
      (filesFromBackend exEnv exStore3 100 [exRec3] true 1 0 8
        []).state.fileList.length = 1 := by
  have h := c1_cancellation exEnv emptyStore exStore3 0 100 [exRec1, exRec2] [exRec3]
    true 1 0 9 8 0 (5, 5) [] [] (by norm_num) (by norm_num) (Or.inl (by decide))
    (by decide) (by intro x hx; cases hx)
    (fun id g hg => lookupExisting_buildIndex_sound hg)
  exact ⟨h.1, h.2.2.2.1, by simpa using h.2.2.2.2.1⟩

/-- Claim C6 witness: a stale `fetchMissingFiles` tail skips the commit
(index and missing counter untouched) while the probed entity aliased into
the live list — here the store's own `exFile1` — already carries the
broken-flag write. -/
theorem c6_witness :
    (fetchMissingApplyPhase (fun _ => false) 1 exStaleStore [some exFile1]).1.index =
        exStaleStore.index ∧
      (fetchMissingApplyPhase (fun _ => false) 1 exStaleStore
          [some exFile1]).1.numMissingFiles = exStaleStore.numMissingFiles ∧
      (fetchMissingApplyPhase (fun _ => false) 1 exStaleStore
          [some exFile1]).1.fileList[0]? = some (some (setBroken exFile1 true)) ∧
      (fetchMissingApplyPhase (fun _ => false) 1 exStaleStore [some exFile1]).2 =
        applyExistenceChecks (fun _ => false) [some exFile1] ∧
      (updateFromBackendExistencePhase (fun _ => false) exStaleStore).fileList =
        applyExistenceChecks (fun _ => false) exStaleStore.fileList := by
  have h := c6_staleness_recheck (fun _ => false) 1 exStaleStore [some exFile1]
  obtain ⟨h1, h2, h3⟩ := h
  obtain ⟨hi, hm, -, -, hE⟩ := h1 (by decide)
  refine ⟨hi, hm, ?_, h2, h3⟩
  have hw := (hE 0 exFile1 (by decide)).1 (by decide)
  simpa using hw

end Allusion
